import Mathlib

/-!
# Shader uniform reflection of tenshin

A shallow embedding of `src/rendering/shader.cpp`: the uniform declaration
parser (`Shader::ParseShaderUniformLine`), the constructor loops that run it
over the vertex and fragment source, `Shader::SetUniform`, `Shader::Bind` and
`Shader::UpdateUniforms`; and of two parts of
`UIManager::DrawShaderPropertiesWindow` in `src/core/ui_manager.cpp`: the
remove button and the loop that pairs the selected shader files.

Modelling conventions.

* `std::string` is `String`, `std::vector<T>` is `List T`.
* A storage reference (`void* value`) is modelled by the storage it refers to
  (`Storage`): a block of 32-bit cells, a `Texture` object, or the null pointer.
  `int`, `unsigned int` and `float` cells are their 32-bit patterns (`Word`);
  the code performs no arithmetic on them, it only moves them between the
  host and the driver.
* The OpenGL driver is an external collaborator. Its queries are the fields
  of `Driver`; the state-changing calls a `Bind` issues are recorded as a list of
  `GLCall`.
* Undefined behaviour and exceptions of the parser (an unchecked
  `operator[]` past the end of the token vector, `std::string::at` past the end
  of the name, the read of the never-assigned local `type`) are `Fault`s. A
  `Fault` is not an outcome the code produces on purpose: the code has no
  check at these places, and nothing is concluded from a fault but that the
  run is not a defined one.
-/

namespace Tenshin

/-! ## Data model -/

/-- Modelled from the spec: the closed enumeration `ShaderUniformType` of
`shader.hpp` (not under src/), in the order the spec lists it. -/
inductive ShaderUniformType where
  | INT | UINT | FLOAT | BOOL
  | VEC2 | VEC3 | VEC4
  | MAT2 | MAT3 | MAT4
  | TEX2D
  deriving DecidableEq, Repr

/-- A 32-bit cell of host memory, seen as its bit pattern. -/
abbrev Word := Nat

/-- Modelled from the spec: the `Texture` resource of `texture.hpp` (not under
src/), reduced to the two observations this code makes of it: its GPU id
(`getID`) and its assigned image unit (`getTextureImageUnit`). -/
structure Texture where
  id : Nat
  imageUnit : Word
  deriving DecidableEq, Repr

/-- What a `void*` storage reference refers to. -/
inductive Storage where
  | null
  | cells (ws : List Word)
  | texture (t : Texture)
  deriving DecidableEq, Repr

/-- Modelled from the spec: the `ShaderUniform` entity of `shader.hpp` (not
under src/): name, type and the public storage reference `value`. -/
structure ShaderUniform where
  name : String
  type : ShaderUniformType
  value : Storage
  deriving DecidableEq, Repr

/-- The driver, as far as this code queries it. Locations are `GLint` values
(the code keeps them in an `unsigned int` between query and use, a round trip
that loses nothing on 32-bit values). -/
structure Driver where
  /-- Handle that `glCreateProgram` returns for the program being linked. -/
  CreateProgram : Nat
  /-- Content of `uniformIndex` after `glGetUniformIndices(program, 1, &name, &uniformIndex)`. -/
  GetUniformIndices : Nat → String → Nat
  /-- Result of `glGetUniformLocation(program, name)`. -/
  GetUniformLocation : Nat → String → Int
  /-- Cell `i` of the destination after `glGetUniformiv(program, location, dest)`. -/
  GetUniformiv : Nat → Int → Nat → Word
  /-- Cell `i` of the destination after `glGetUniformuiv(program, location, dest)`. -/
  GetUniformuiv : Nat → Int → Nat → Word
  /-- Cell `i` of the destination after `glGetUniformfv(program, location, dest)`. -/
  GetUniformfv : Nat → Int → Nat → Word
  /-- Image unit that a default-constructed `Texture` reports. -/
  defaultImageUnit : Word

/-- Modelled from the spec: `new Texture`, the default constructor of the
`Texture` class of `texture.hpp` (not under src/): an empty placeholder whose
GPU id is 0. -/
def Texture.new (gl : Driver) : Texture := ⟨0, gl.defaultImageUnit⟩

/-- Ways in which a run of the parser leaves defined behaviour. A fault is no
rejection of the line and no check of the code: it marks the statement from
which on the language no longer says what the run does. -/
inductive Fault where
  /-- Unchecked `splitLine[i]` with `i` past the end of the token vector. -/
  | tokenOutOfRange
  /-- The call `name.at(name.size() - 1)` on an empty name (`std::out_of_range`). -/
  | charOutOfRange
  /-- The statement `switch(type)` of line 252 reached with `type` never
  assigned: the read of the indeterminate value is undefined. The code has no
  stop there; it goes on through the switch and returns, at lines 302-303, a
  non-null `ShaderUniform` built from that value, an object whose type is none
  the keyword gave it and whose storage is whatever the case that happened to
  be taken, if any, allocated. -/
  | uninitializedType
  deriving DecidableEq, Repr

deriving instance DecidableEq for Except

/-! ## String helpers -/

/-- Modelled from the spec: the splitting that `SplitString` of
`misc/utils.hpp` (not under src/) performs, on the characters of the text:
the pieces between the occurrences of `delimiter`, in order. -/
def splitChars (delimiter : Char) : List Char → List (List Char)
  | [] => [[]]
  | c :: cs =>
    if c = delimiter then [] :: splitChars delimiter cs
    else
      match splitChars delimiter cs with
      | [] => [[c]]
      | t :: ts => (c :: t) :: ts

/-- Modelled from the spec: `SplitString(str, delimiter)` of `misc/utils.hpp`
(not under src/), which splits the text at the delimiter character: the
result lists, in order, the pieces of `str` between the occurrences of
`delimiter`. -/
def SplitString (str : String) (delimiter : Char) : List String :=
  (splitChars delimiter str.data).map String.mk

/-! ## Shader::ParseShaderUniformLine -/

/-- The `if`/`else if` chain of lines 220-241: the type a keyword assigns to
the local `type`, `none` when no branch is taken and `type` stays unassigned. -/
def typeOfKeyword (keyword : String) : Option ShaderUniformType :=
  if keyword = "int" then some .INT
  else if keyword = "uint" then some .UINT
  else if keyword = "float" then some .FLOAT
  else if keyword = "bool" then some .BOOL
  else if keyword = "vec2" then some .VEC2
  else if keyword = "vec3" then some .VEC3
  else if keyword = "vec4" then some .VEC4
  else if keyword = "mat2" then some .MAT2
  else if keyword = "mat3" then some .MAT3
  else if keyword = "mat4" then some .MAT4
  else if keyword = "sampler2D" then some .TEX2D
  else none

/-- Conversion of the `unsigned int uniformIndex` to the `GLint location`
parameter of the read-back calls (32 bits, two's complement). -/
def toGLint (u : Nat) : Int :=
  if u % 2 ^ 32 < 2 ^ 31 then Int.ofNat (u % 2 ^ 32) else Int.ofNat (u % 2 ^ 32) - 2 ^ 32

/-- A freshly allocated block of `n` cells after a read-back into it. -/
def readBack (n : Nat) (dest : Nat → Word) : Storage :=
  .cells ((List.range n).map dest)

/-- The `switch(type)` of lines 252-300: allocation of the storage and its
initialisation. The read-back is addressed with `uniformIndex`. -/
def allocate (gl : Driver) (_id : Nat) (uniformIndex : Nat) : ShaderUniformType → Storage
  | .INT | .BOOL => readBack 1 (gl.GetUniformiv _id (toGLint uniformIndex))
  | .UINT => readBack 1 (gl.GetUniformuiv _id (toGLint uniformIndex))
  | .FLOAT => readBack 1 (gl.GetUniformfv _id (toGLint uniformIndex))
  | .VEC2 => readBack 2 (gl.GetUniformfv _id (toGLint uniformIndex))
  | .VEC3 => readBack 3 (gl.GetUniformfv _id (toGLint uniformIndex))
  | .VEC4 => readBack 4 (gl.GetUniformfv _id (toGLint uniformIndex))
  | .MAT2 => readBack (2 * 2) (gl.GetUniformfv _id (toGLint uniformIndex))
  | .MAT3 => readBack (3 * 3) (gl.GetUniformfv _id (toGLint uniformIndex))
  | .MAT4 => readBack (4 * 4) (gl.GetUniformfv _id (toGLint uniformIndex))
  | .TEX2D => .texture (Texture.new gl)

/-- Unchecked `splitLine[i]`. -/
def tokenAt (splitLine : List String) (i : Nat) : Except Fault String :=
  match splitLine[i]? with
  | some token => .ok token
  | none => .error .tokenOutOfRange

/-- Lines 215-216: `name.at(name.size() - 1)` and the removal of a final `;`. -/
def stripTerminator (name : String) : Except Fault String :=
  match name.data.getLast? with
  | none => .error .charOutOfRange
  | some c => if c = ';' then .ok (String.mk name.data.dropLast) else .ok name

/-- `Shader::ParseShaderUniformLine`, lines 188-307. `.ok none` is `nullptr`,
`.ok (some u)` a `ShaderUniform` with an assigned type. A run that leaves
defined behaviour is an `.error`, which stands for no return value of the
code: in particular `.error .uninitializedType` is the run on an unrecognised
keyword, in which the code, far from rejecting the line, returns a non-null
`ShaderUniform` with an indeterminate type. -/
def ParseShaderUniformLine (gl : Driver) (_id : Nat) (line : String) :
    Except Fault (Option ShaderUniform) :=
  if line.data = [] ∨ line.data.head? = some '#' then .ok none
  else do
    let splitLine := SplitString line ' '
    let first ← tokenAt splitLine 0
    if first = "uniform" then
      let name ← tokenAt splitLine 2
      let name ← stripTerminator name
      let keyword ← tokenAt splitLine 1
      let type := typeOfKeyword keyword
      let uniformIndex := gl.GetUniformIndices _id name
      match type with
      | none => .error .uninitializedType
      | some type => .ok (some ⟨name, type, allocate gl _id uniformIndex type⟩)
    else .ok none

/-! ## Shader::Shader -/

/-- A shader program: the handle `_id` and the owned uniforms `_uniforms`
(a `std::vector<ShaderUniform*>` of distinct heap objects, modelled by the
sequence of the objects). -/
structure Shader where
  _id : Nat
  _uniforms : List ShaderUniform
  deriving DecidableEq, Repr

/-- The call `std::getline(stream, line, delimiter)` on a good stream whose
unread characters are given. The first component is `line` after the call.
The second is the unread rest when the delimiter was found (extracted and
dropped, the stream stays good) and `none` when the end of the stream was
reached (eofbit is set and `good()` is false from then on). -/
def getline (delimiter : Char) : List Char → List Char × Option (List Char)
  | [] => ([], none)
  | c :: cs =>
    if c = delimiter then ([], some cs)
    else ((getline delimiter cs).1.cons c, (getline delimiter cs).2)

/-- The loop of lines 39-46 (and 51-58):
`while(stream.good()) { getline; ParseShaderUniformLine; push_back }`,
with the unread characters of the stream and the vector built so far. Every
round but the last extracts a delimiter, so `fuel` above the length of the
stream is never used up. -/
def parseStream (parse : String → Except Fault (Option ShaderUniform)) :
    Nat → List Char → List ShaderUniform → Except Fault (List ShaderUniform)
  | 0, _, _uniforms => .ok _uniforms
  | fuel + 1, stream, _uniforms => do
    let line := (getline '\n' stream).1
    let uniform ← parse (String.mk line)
    let _uniforms :=
      match uniform with
      | some uniform => _uniforms ++ [uniform]
      | none => _uniforms
    match (getline '\n' stream).2 with
    | some stream => parseStream parse fuel stream _uniforms
    | none => .ok _uniforms

/-- The constructor `Shader::Shader(vertSource, fragSource)`, lines 9-59: the
program is created and linked by the driver, then both sources are parsed line
by line, vertex source first. -/
def Shader.new (gl : Driver) (vertSource fragSource : String) : Except Fault Shader := do
  let _id := gl.CreateProgram
  let _uniforms ← parseStream (ParseShaderUniformLine gl _id)
    (vertSource.data.length + 1) vertSource.data []
  let _uniforms ← parseStream (ParseShaderUniformLine gl _id)
    (fragSource.data.length + 1) fragSource.data _uniforms
  .ok ⟨_id, _uniforms⟩

/-! ## Shader::SetUniform, Shader::Bind, Shader::UpdateUniforms -/

/-- The loop of `Shader::SetUniform`, lines 113-119. The loop variable is a
copy of the pointer, so the assignment reaches the owned object. -/
def setUniformLoop (name : String) (value : Storage) : List ShaderUniform → List ShaderUniform
  | [] => []
  | uniform :: rest =>
    if uniform.name = name then
      ⟨uniform.name, uniform.type, value⟩ :: setUniformLoop name value rest
    else
      uniform :: setUniformLoop name value rest

/-- `Shader::SetUniform(name, value)`, lines 111-120. -/
def Shader.SetUniform (shader : Shader) (name : String) (value : Storage) : Shader :=
  ⟨shader._id, setUniformLoop name value shader._uniforms⟩

/-- The read `*((int*)value)` (also through `unsigned int*` and `float*`): the
first cell of the referenced block; `none` when the reference is not to a
block with a first cell and the read is undefined. -/
def Storage.deref : Storage → Option Word
  | .cells (w :: _) => some w
  | _ => none

/-- The call `((Texture*)value)->getTextureImageUnit()`; `none` when the
reference is not to a `Texture` and the call is undefined. -/
def Storage.getTextureImageUnit : Storage → Option Word
  | .texture t => some t.imageUnit
  | _ => none

/-- The state-changing driver calls of `Bind`, with their arguments. Scalars
are passed by value, vectors and matrices by the reference the driver reads
them from. -/
inductive GLCall where
  | UseProgram (program : Nat)
  | Uniform1i (location : Int) (v0 : Option Word)
  | Uniform1ui (location : Int) (v0 : Option Word)
  | Uniform1f (location : Int) (v0 : Option Word)
  | Uniform2fv (location : Int) (count : Nat) (value : Storage)
  | Uniform3fv (location : Int) (count : Nat) (value : Storage)
  | Uniform4fv (location : Int) (count : Nat) (value : Storage)
  | UniformMatrix2fv (location : Int) (count : Nat) (transpose : Bool) (value : Storage)
  | UniformMatrix3fv (location : Int) (count : Nat) (transpose : Bool) (value : Storage)
  | UniformMatrix4fv (location : Int) (count : Nat) (transpose : Bool) (value : Storage)
  deriving DecidableEq, Repr

/-- The loop of `Shader::UpdateUniforms`, lines 125-168, as the calls it issues. -/
def updateUniformsLoop (gl : Driver) (_id : Nat) : List ShaderUniform → List GLCall
  | [] => []
  | uniform :: rest =>
    let uniformLocation := gl.GetUniformLocation _id uniform.name
    let call :=
      match uniform.type with
      | .INT => GLCall.Uniform1i uniformLocation uniform.value.deref
      | .BOOL => GLCall.Uniform1i uniformLocation uniform.value.deref
      | .UINT => GLCall.Uniform1ui uniformLocation uniform.value.deref
      | .FLOAT => GLCall.Uniform1f uniformLocation uniform.value.deref
      | .VEC2 => GLCall.Uniform2fv uniformLocation 1 uniform.value
      | .VEC3 => GLCall.Uniform3fv uniformLocation 1 uniform.value
      | .VEC4 => GLCall.Uniform4fv uniformLocation 1 uniform.value
      | .MAT2 => GLCall.UniformMatrix2fv uniformLocation 1 false uniform.value
      | .MAT3 => GLCall.UniformMatrix3fv uniformLocation 1 false uniform.value
      | .MAT4 => GLCall.UniformMatrix4fv uniformLocation 1 false uniform.value
      | .TEX2D => GLCall.Uniform1i uniformLocation uniform.value.getTextureImageUnit
    call :: updateUniformsLoop gl _id rest

/-- `Shader::UpdateUniforms`, lines 121-169. -/
def Shader.UpdateUniforms (shader : Shader) (gl : Driver) : List GLCall :=
  updateUniformsLoop gl shader._id shader._uniforms

/-- `Shader::Bind`, lines 101-105. -/
def Shader.Bind (shader : Shader) (gl : Driver) : List GLCall :=
  GLCall.UseProgram shader._id :: shader.UpdateUniforms gl

/-- `Shader::Unbind`, lines 106-109. -/
def Shader.Unbind (_shader : Shader) : List GLCall :=
  [GLCall.UseProgram 0]

/-- A driver used in examples. -/
def exampleGL : Driver where
  CreateProgram := 3
  GetUniformIndices := fun _ name => if name = "a" then 0 else if name = "b" then 1 else 4294967295
  GetUniformLocation := fun _ name => if name = "a" then 0 else if name = "b" then 4 else -1
  GetUniformiv := fun _ location i => location.toNat * 100 + i
  GetUniformuiv := fun _ location i => location.toNat * 100 + i
  GetUniformfv := fun _ location i => location.toNat * 100 + i
  defaultImageUnit := 0

/-! ## Reference notions used in the statements -/

/-- The recognised type keywords with the type each stands for. -/
def keywordTable : List (String × ShaderUniformType) :=
  [("int", .INT), ("uint", .UINT), ("float", .FLOAT), ("bool", .BOOL),
   ("vec2", .VEC2), ("vec3", .VEC3), ("vec4", .VEC4),
   ("mat2", .MAT2), ("mat3", .MAT3), ("mat4", .MAT4), ("sampler2D", .TEX2D)]

/-- The eleven recognised type keywords. -/
def recognizedKeywords : List String :=
  ["int", "uint", "float", "bool", "vec2", "vec3", "vec4", "mat2", "mat3", "mat4", "sampler2D"]

/-- The line `uniform <keyword> <name>;`, its tokens one space apart. -/
def declarationLine (keyword name : String) : String :=
  "uniform " ++ keyword ++ " " ++ name ++ ";"

/-- Physical lines of a source text: the pieces between its line feeds, where
a line feed at the very end closes the last line and opens no further one. -/
def sourceLines (source : String) : List String :=
  let pieces := source.data.splitOn '\n'
  (if pieces.getLast? = some [] then pieces.dropLast else pieces).map String.mk

/-- The upload call that belongs to a uniform type: `1i` for INT and BOOL,
`1ui` for UINT, `1f` for FLOAT, `2fv`, `3fv`, `4fv` with count 1 for the
vectors, `Matrix2fv`, `Matrix3fv`, `Matrix4fv` with count 1 and no transpose
for the matrices, and `1i` with the image unit of the referenced `Texture`
for TEX2D. -/
def uploadFor (type : ShaderUniformType) (location : Int) (value : Storage) : GLCall :=
  match type with
  | .INT | .BOOL => .Uniform1i location value.deref
  | .UINT => .Uniform1ui location value.deref
  | .FLOAT => .Uniform1f location value.deref
  | .VEC2 => .Uniform2fv location 1 value
  | .VEC3 => .Uniform3fv location 1 value
  | .VEC4 => .Uniform4fv location 1 value
  | .MAT2 => .UniformMatrix2fv location 1 false value
  | .MAT3 => .UniformMatrix3fv location 1 false value
  | .MAT4 => .UniformMatrix4fv location 1 false value
  | .TEX2D => .Uniform1i location value.getTextureImageUnit

/-- Whether a driver call is one of the uniform uploads. -/
def GLCall.isUpload : GLCall → Bool
  | .UseProgram _ => false
  | _ => true

/-- A call of one of the public operations of a constructed Shader. -/
inductive ShaderCall where
  | SetUniform (name : String) (value : Storage)
  | Bind
  | Unbind
  deriving DecidableEq, Repr

/-- The Shader after a call, and the driver calls the call issues. `Bind`,
`UpdateUniforms` and `Unbind` are `const` member functions and assign to no
member; `SetUniform` talks to no driver. -/
def Shader.call (shader : Shader) (gl : Driver) : ShaderCall → Shader × List GLCall
  | .SetUniform name value => (shader.SetUniform name value, [])
  | .Bind => (shader, shader.Bind gl)
  | .Unbind => (shader, shader.Unbind)

/-- A sequence of calls, one after the other: the Shader at the end and the
driver calls issued on the way. -/
def Shader.calls (shader : Shader) (gl : Driver) : List ShaderCall → Shader × List GLCall
  | [] => (shader, [])
  | c :: cs =>
    (((shader.call gl c).1.calls gl cs).1, (shader.call gl c).2 ++ ((shader.call gl c).1.calls gl cs).2)

/-- Whether a call is a `SetUniform`. -/
def ShaderCall.isSetUniform : ShaderCall → Bool
  | .SetUniform _ _ => true
  | _ => false

/-- The element count `SizeOf(type)` of the storage of a non-texture type: 1
for INT, UINT, FLOAT and BOOL, 2, 3, 4 for the vectors, 4, 9, 16 for the
matrices. -/
def sizeOfType : ShaderUniformType → Option Nat
  | .INT | .UINT | .FLOAT | .BOOL => some 1
  | .VEC2 => some 2
  | .VEC3 => some 3
  | .VEC4 => some 4
  | .MAT2 => some 4
  | .MAT3 => some 9
  | .MAT4 => some 16
  | .TEX2D => none

/-- Whether a storage reference refers to a block of exactly `SizeOf(type)`
cells; nothing is asked of a texture type. -/
def storageFits (type : ShaderUniformType) (value : Storage) : Bool :=
  match sizeOfType type, value with
  | none, _ => true
  | some n, .cells ws => ws.length == n
  | some _, _ => false

/-- The storage-size invariant of a Shader: every owned uniform of
non-texture type has storage of exactly `SizeOf(type)` cells. -/
def Shader.storageFits (shader : Shader) : Bool :=
  shader._uniforms.all fun u => Tenshin.storageFits u.type u.value

/-- Whether the storage a call passes fits every uniform the call names
(calls other than `SetUniform` pass none). -/
def ShaderCall.fits (shader : Shader) : ShaderCall → Bool
  | .SetUniform name value =>
    shader._uniforms.all fun u => u.name != name || Tenshin.storageFits u.type value
  | _ => true

/-- Whether every call of a sequence fits the Shader it is made on. -/
def Shader.callsFit (shader : Shader) (gl : Driver) : List ShaderCall → Bool
  | [] => true
  | c :: cs => c.fits shader && (shader.call gl c).1.callsFit gl cs

/-- What a parse result says of the declaration: whether a uniform was
produced and, if so, its name and type. -/
def outcome (result : Except Fault (Option ShaderUniform)) :
    Except Fault (Option (String × ShaderUniformType)) :=
  result.map (Option.map fun u => (u.name, u.type))

/-- The outcome of a parse as the token vector fixes it. -/
def tokensOutcome (splitLine : List String) :
    Except Fault (Option (String × ShaderUniformType)) := do
  let first ← tokenAt splitLine 0
  if first = "uniform" then
    let name ← tokenAt splitLine 2
    let name ← stripTerminator name
    let keyword ← tokenAt splitLine 1
    match typeOfKeyword keyword with
    | none => .error .uninitializedType
    | some type => .ok (some (name, type))
  else .ok none

/-- A driver for a program from which the linker removed every uniform: each
index query reports `GL_INVALID_INDEX`, each location query -1. -/
def eliminatedGL : Driver where
  CreateProgram := 5
  GetUniformIndices := fun _ _ => 4294967295
  GetUniformLocation := fun _ _ => -1
  GetUniformiv := fun _ _ i => 77 + i
  GetUniformuiv := fun _ _ i => 77 + i
  GetUniformfv := fun _ _ i => 77 + i
  defaultImageUnit := 0

/-- The line `uniform <keyword> <name>`, one space apart and without a
final `;`. -/
def bareLine (keyword name : String) : String :=
  "uniform " ++ keyword ++ " " ++ name

/-- The line `uniform <keyword> <name>;` with a tab in the place of each
space. -/
def tabbedLine (keyword name : String) : String :=
  "uniform\t" ++ keyword ++ "\t" ++ name ++ ";"

/-! ## UIManager::DrawShaderPropertiesWindow -/

/-- Ways in which the editor code of `src/core/ui_manager.cpp` leaves defined
behaviour. -/
inductive UIFault where
  /-- Unchecked `operator[]` past the end of a vector. -/
  | indexOutOfRange
  /-- The call `erase(find(...))` for an element that is not found: `erase` of
  the end iterator. -/
  | eraseEnd
  deriving DecidableEq, Repr

/-- Unchecked `v[i]`. The index is converted to `size_t`, which puts a
negative `int` past the end of every vector. -/
def elementAt (v : List String) (i : Int) : Except UIFault String :=
  if i < 0 then .error .indexOutOfRange
  else
    match v[i.toNat]? with
    | some x => .ok x
    | none => .error .indexOutOfRange

/-- Modelled from the spec: `FindIndexOfElement(vector, element)` of
`misc/utils.hpp` (not under src/): the position of the element in the
vector, and -1, the value its caller tests for, when the vector holds no
such element. -/
def FindIndexOfElement (v : List String) (element : String) : Int :=
  if element ∈ v then Int.ofNat (v.indexOf element) else -1

/-- What the remove button reads and writes: the static name list
`loadedShaderNames`, the static selection index `currentShader`, and the
active-shader reference `Scene::getInstance().shader` (`none` is `nullptr`,
otherwise the name under which the referenced Shader is registered). -/
structure UIState where
  loadedShaderNames : List String
  currentShader : Int
  sceneShader : Option String
  deriving DecidableEq, Repr

/-- The effects of the remove button on its collaborators, in program
order. -/
inductive UIEffect where
  /-- Assignment to `Scene::getInstance().shader`. -/
  | SetSceneShader (shader : Option String)
  /-- The call `ResourceManager::getInstance().UnloadShader(name)`. -/
  | UnloadShader (name : String)
  deriving DecidableEq, Repr

/-- The body of `if(ImGui::Button("X"))`, lines 164-174: the state after it
and the effects it has. -/
def removeShaderButton (ui : UIState) : Except UIFault (UIState × List UIEffect) := do
  let currentShaderName ← elementAt ui.loadedShaderNames ui.currentShader
  if currentShaderName ≠ "default" then
    let defaultShaderIndex := FindIndexOfElement ui.loadedShaderNames "default"
    let currentShader := if defaultShaderIndex ≠ -1 then defaultShaderIndex else 0
    .ok (⟨ui.loadedShaderNames, currentShader, none⟩,
      [.SetSceneShader none, .UnloadShader currentShaderName])
  else .ok (ui, [])

/-- `FilePathSplitter::operator()`, lines 184-192: file name and extension of
a path. -/
def ParseFileNameAndExtension (path : String) : Except UIFault (String × String) := do
  let splitPath := SplitString path '/'
  let last ← elementAt splitPath (Int.ofNat splitPath.length - 1)
  let fileNameWithExtension := SplitString last '.'
  let fileName ← elementAt fileNameWithExtension 0
  let extension ← elementAt fileNameWithExtension 1
  .ok (fileName, extension)

/-- The count `path.length() - 3` in `size_t`: for a length below 3 the
difference wraps around to a count beyond the length of any string. -/
def lengthMinus3 (length : Nat) : Nat :=
  if 3 ≤ length then length - 3 else length + 2 ^ 64 - 3

/-- `path.substr(0, count)`: the first `count` characters, the whole string
when it has fewer. -/
def substr0 (path : String) (count : Nat) : String :=
  String.mk (path.data.take count)

/-- The call `shaderPaths.erase(std::find(begin, end, element))`: the first
occurrence is removed; when there is none, `erase` gets the end iterator. -/
def eraseFound (v : List String) (element : String) : Except UIFault (List String) :=
  if element ∈ v then .ok (v.erase element) else .error .eraseEnd

/-- The variables of the pairing loop, lines 196-249. -/
structure PairState where
  shaderPaths : List String
  shaderSources : List (String × String)
  i : Int
  deriving DecidableEq, Repr

/-- One round of the body of `while(shaderPaths.size() > 0)`, lines 205-248.
In the last statement, `i = i < size ? i++ : size`, the value of `i++` is the
old `i` and the assignment follows the increment, so `i` keeps its value
when it is below the size. -/
def pairStep (s : PairState) : Except UIFault PairState := do
  let path ← elementAt s.shaderPaths s.i
  let fileNameAndExtension ← ParseFileNameAndExtension path
  let secondShaderPath := substr0 path (lengthMinus3 path.data.length)
  let newShader : String × String :=
    if fileNameAndExtension.2 = "fs" then
      if secondShaderPath ++ ".vs" ∈ s.shaderPaths then (secondShaderPath ++ ".vs", path)
      else ("", path)
    else if fileNameAndExtension.2 = "vs" then
      if secondShaderPath ++ ".fs" ∈ s.shaderPaths then (path, secondShaderPath ++ ".fs")
      else (path, "")
    else ("", "")
  if newShader ∈ s.shaderSources then
    .ok ⟨s.shaderPaths, s.shaderSources,
      if 0 ≤ s.i ∧ s.i < Int.ofNat s.shaderPaths.length then s.i
      else Int.ofNat s.shaderPaths.length⟩
  else do
    let shaderPaths ←
      if newShader.1 ≠ "" then eraseFound s.shaderPaths newShader.1 else .ok s.shaderPaths
    let shaderPaths ←
      if newShader.2 ≠ "" then eraseFound shaderPaths newShader.2 else .ok shaderPaths
    .ok ⟨shaderPaths, s.shaderSources ++ [newShader],
      if 0 ≤ s.i ∧ s.i < Int.ofNat shaderPaths.length then s.i
      else Int.ofNat shaderPaths.length⟩

/-- The loop of lines 202-249 for at most `rounds` rounds: the state in which
it ends, or the state after `rounds` rounds when it has not ended by then. -/
def pairRun : Nat → PairState → Except UIFault PairState
  | 0, s => .ok s
  | rounds + 1, s =>
    if 0 < s.shaderPaths.length then (pairStep s).bind (pairRun rounds) else .ok s

/-- A path whose file name, the part after the last `/`, has exactly one `.`
and the extension `vs` or `fs`. -/
def IsShaderPath (path : String) : Prop :=
  ∃ dir name ext : List Char, path.data = dir ++ (name ++ '.' :: ext) ∧
    (dir = [] ∨ dir.getLast? = some '/') ∧ '/' ∉ name ∧ '.' ∉ name ∧
    (ext = ['v', 's'] ∨ ext = ['f', 's'])

/-- The paths a collected pair names: its components other than the empty
string. -/
def pairPaths (pair : String × String) : List String :=
  [pair.1, pair.2].filter fun path => path ≠ ""

/-- The vertex shader path with the given stem. -/
def vertexPath (stem : String) : String := stem ++ ".vs"

/-- The fragment shader path with the given stem. -/
def fragmentPath (stem : String) : String := stem ++ ".fs"

/-- How a collected pair stands to the selected paths: a vertex path and
its fragment partner, both selected; or a selected vertex path alone, its
partner not selected and the empty string in its place; or a selected
fragment path alone, likewise. -/
def PairOK (paths : List String) (pair : String × String) : Prop :=
  ∃ stem : String,
    (pair = (vertexPath stem, fragmentPath stem) ∧
      vertexPath stem ∈ paths ∧ fragmentPath stem ∈ paths) ∨
    (pair = (vertexPath stem, "") ∧ vertexPath stem ∈ paths ∧ fragmentPath stem ∉ paths) ∨
    (pair = ("", fragmentPath stem) ∧ fragmentPath stem ∈ paths ∧ vertexPath stem ∉ paths)

/-- The invariant of the pairing loop over the selected `paths`: the index
is 0; the paths still listed are shader paths; the paths collected so far
together with those still listed are the selected ones; the collected pairs
are as `PairOK` says; and of two selected partners both are still listed or
neither. -/
structure PairInv (paths : List String) (s : PairState) : Prop where
  index : s.i = 0
  shader : ∀ p ∈ s.shaderPaths, IsShaderPath p
  perm : (s.shaderSources.flatMap pairPaths ++ s.shaderPaths).Perm paths
  pairs : ∀ pair ∈ s.shaderSources, PairOK paths pair
  partners : ∀ stem, vertexPath stem ∈ paths → fragmentPath stem ∈ paths →
    (vertexPath stem ∈ s.shaderPaths ↔ fragmentPath stem ∈ s.shaderPaths)

/-- A selection of shader files used in examples. -/
def examplePaths : List String :=
  ["/shaders/toon.vs", "/shaders/glow.fs", "/shaders/toon.fs", "flat.vs"]

/-! ## Splitting -/

theorem splitChars_ne_nil (d : Char) (l : List Char) : splitChars d l ≠ [] := by
  cases l with
  | nil => simp [splitChars]
  | cons c cs =>
    unfold splitChars
    split
    · simp
    · split <;> simp

theorem splitChars_eq_splitOn (d : Char) (l : List Char) : splitChars d l = l.splitOn d := by
  induction l with
  | nil => simp [splitChars]
  | cons c cs ih =>
    rw [List.splitOn, List.splitOnP_cons]
    by_cases h : c = d
    · subst h
      simp [splitChars, ih, List.splitOn]
    · have h' : (c == d) = false := by simpa using h
      rw [splitChars, if_neg h, ih, List.splitOn, h']
      simp only [Bool.false_eq_true, if_false]
      cases hs : List.splitOnP (fun x => x == d) cs with
      | nil => exact absurd hs (List.splitOnP_ne_nil _ _)
      | cons t ts => simp [List.modifyHead]

theorem splitChars_single (d : Char) (l : List Char) (h : d ∉ l) : splitChars d l = [l] := by
  induction l with
  | nil => simp [splitChars]
  | cons c cs ih =>
    have hc : c ≠ d := fun e => h (by simp [e])
    have hcs : d ∉ cs := fun e => h (by simp [e])
    simp [splitChars, hc, ih hcs]

theorem splitChars_append (d : Char) (l₁ l₂ : List Char) (h : d ∉ l₁) :
    splitChars d (l₁ ++ d :: l₂) = l₁ :: splitChars d l₂ := by
  induction l₁ with
  | nil => simp [splitChars]
  | cons c cs ih =>
    have hc : c ≠ d := fun e => h (by simp [e])
    have hcs : d ∉ cs := fun e => h (by simp [e])
    simp [splitChars, hc, ih hcs]

theorem SplitString_ne_nil (str : String) (d : Char) : SplitString str d ≠ [] := by
  simp [SplitString, splitChars_ne_nil]

/-- The tokens of a declaration line. -/
theorem SplitString_declarationLine (keyword name : String)
    (hk : ' ' ∉ keyword.data) (hn : ' ' ∉ name.data) :
    SplitString (declarationLine keyword name) ' ' = ["uniform", keyword, name ++ ";"] := by
  have h0 : (declarationLine keyword name).data
      = "uniform".data ++ ' ' :: (keyword.data ++ ' ' :: (name.data ++ [';'])) := by
    simp [declarationLine, String.data_append]
  have h1 : ' ' ∉ "uniform".data := by decide
  have h2 : ' ' ∉ name.data ++ [';'] := by
    simp only [List.mem_append, List.mem_singleton, not_or]
    exact ⟨hn, by decide⟩
  rw [SplitString, h0, splitChars_append _ _ _ h1, splitChars_append _ _ _ hk,
    splitChars_single _ _ h2]
  simp [String.ext_iff, String.data_append]

/-! ## The parser on a tokenised line -/

theorem stripTerminator_append_semicolon (name : String) :
    stripTerminator (name ++ ";") = .ok name := by
  have h : (name ++ ";").data = name.data ++ [';'] := by
    simp [String.data_append]
  simp [stripTerminator, h]

/-- The parser on a line that is neither empty nor a directive, in terms of
its tokens. -/
theorem ParseShaderUniformLine_of_tokens (gl : Driver) (_id : Nat) (line : String)
    (keyword name : String) (rest : List String)
    (hne : line.data ≠ []) (hc : line.data.head? ≠ some '#')
    (ht : SplitString line ' ' = "uniform" :: keyword :: name :: rest) :
    ParseShaderUniformLine gl _id line =
      (stripTerminator name).bind fun name =>
        match typeOfKeyword keyword with
        | none => .error .uninitializedType
        | some type =>
          .ok (some ⟨name, type, allocate gl _id (gl.GetUniformIndices _id name) type⟩) := by
  unfold ParseShaderUniformLine
  rw [if_neg (by simp [hne, hc]), ht]
  simp [tokenAt, bind, Except.bind]

theorem declarationLine_data_ne_nil (keyword name : String) :
    (declarationLine keyword name).data ≠ [] := by
  simp [declarationLine, String.data_append]

theorem declarationLine_head (keyword name : String) :
    (declarationLine keyword name).data.head? ≠ some '#' := by
  have h0 : (declarationLine keyword name).data
      = 'u' :: ("niform".data ++ ' ' :: (keyword.data ++ ' ' :: (name.data ++ [';']))) := by
    simp [declarationLine, String.data_append]
  rw [h0]
  simp

theorem keywordTable_no_space (keyword : String) (type : ShaderUniformType)
    (h : (keyword, type) ∈ keywordTable) : ' ' ∉ keyword.data := by
  simp [keywordTable] at h
  rcases h with h | h | h | h | h | h | h | h | h | h | h <;> (rw [h.1]; decide)

theorem mem_of_ite_eq_some {keyword kw : String} {t type : ShaderUniformType}
    {rest : Option ShaderUniformType} {l : List (String × ShaderUniformType)}
    (hr : rest = some type → (keyword, type) ∈ l) :
    (if keyword = kw then some t else rest) = some type → (keyword, type) ∈ (kw, t) :: l := by
  intro h
  by_cases hk : keyword = kw
  · rw [if_pos hk] at h
    rw [hk, ← Option.some.inj h]
    exact List.mem_cons_self _ _
  · rw [if_neg hk] at h
    exact List.mem_cons_of_mem _ (hr h)

theorem typeOfKeyword_iff (keyword : String) (type : ShaderUniformType) :
    typeOfKeyword keyword = some type ↔ (keyword, type) ∈ keywordTable := by
  constructor
  · unfold typeOfKeyword keywordTable
    repeat' apply mem_of_ite_eq_some
    intro h
    cases h
  · intro h
    simp only [keywordTable, List.mem_cons, Prod.mk.injEq, List.mem_singleton,
      List.not_mem_nil, or_false] at h
    rcases h with h | h | h | h | h | h | h | h | h | h | h <;>
      (obtain ⟨hk, ht⟩ := h; subst hk; subst ht; decide)

/-! ## Results of the parser -/

theorem ParseShaderUniformLine_of_declarationLine (gl : Driver) (_id : Nat)
    (keyword name : String) (type : ShaderUniformType)
    (hk : (keyword, type) ∈ keywordTable) (hn : ' ' ∉ name.data) :
    ParseShaderUniformLine gl _id (declarationLine keyword name) =
      .ok (some ⟨name, type, allocate gl _id (gl.GetUniformIndices _id name) type⟩) := by
  rw [ParseShaderUniformLine_of_tokens gl _id _ keyword (name ++ ";") []
    (declarationLine_data_ne_nil keyword name) (declarationLine_head keyword name)
    (SplitString_declarationLine keyword name (keywordTable_no_space keyword type hk) hn),
    stripTerminator_append_semicolon, (typeOfKeyword_iff keyword type).2 hk]
  rfl

/-- C1: for every line `uniform <type> <name>;` with single spaces, `<type>` one
of the eleven recognised keywords and `<name>` free of spaces (as every
identifier is), `ParseShaderUniformLine` returns one `ShaderUniform`, whose name
is `<name>` without the final `;` and whose type is the one the keyword stands
for; its storage is what the allocation switch yields for that type. -/
theorem ParseShaderUniformLine_declarationLine (gl : Driver) (_id : Nat)
    (keyword name : String) (type : ShaderUniformType)
    (hk : (keyword, type) ∈ keywordTable) (hn : ' ' ∉ name.data) :
    ParseShaderUniformLine gl _id (declarationLine keyword name) =
      .ok (some ⟨name, type, allocate gl _id (gl.GetUniformIndices _id name) type⟩) :=
  ParseShaderUniformLine_of_declarationLine gl _id keyword name type hk hn

theorem ParseShaderUniformLine_declarationLine_witness :
    ("vec3", ShaderUniformType.VEC3) ∈ keywordTable ∧ ' ' ∉ "lightDir".data ∧
    ParseShaderUniformLine exampleGL 3 (declarationLine "vec3" "lightDir") =
      .ok (some ⟨"lightDir", .VEC3,
        allocate exampleGL 3 (exampleGL.GetUniformIndices 3 "lightDir") .VEC3⟩) :=
  ⟨by decide, by decide,
    ParseShaderUniformLine_declarationLine exampleGL 3 "vec3" "lightDir" .VEC3
      (by decide) (by decide)⟩

theorem ParseShaderUniformLine_of_first_token (gl : Driver) (_id : Nat) (line : String)
    (h : line = "" ∨ line.data.head? = some '#' ∨
      (SplitString line ' ').head? ≠ some "uniform") :
    ParseShaderUniformLine gl _id line = .ok none := by
  unfold ParseShaderUniformLine
  by_cases h0 : line.data = [] ∨ line.data.head? = some '#'
  · rw [if_pos h0]
  · rw [if_neg h0]
    have h1 : (SplitString line ' ').head? ≠ some "uniform" := by
      rcases h with h | h | h
      · exact absurd (Or.inl (by rw [h])) h0
      · exact absurd (Or.inr h) h0
      · exact h
    cases hs : SplitString line ' ' with
    | nil => exact absurd hs (SplitString_ne_nil line ' ')
    | cons first rest =>
      rw [hs] at h1
      have h2 : first ≠ "uniform" := by simpa using h1
      simp [tokenAt, bind, Except.bind, h2]

/-- C2: a line that is empty, or begins with `#`, or whose first token under
`SplitString(line, ' ')` is not `uniform` (a `layout(...)` or other qualifier
in front of `uniform` included) yields no uniform: the parser returns
`nullptr`. -/
theorem ParseShaderUniformLine_eq_nullptr (gl : Driver) (_id : Nat) (line : String)
    (h : line = "" ∨ line.data.head? = some '#' ∨
      (SplitString line ' ').head? ≠ some "uniform") :
    ParseShaderUniformLine gl _id line = .ok none :=
  ParseShaderUniformLine_of_first_token gl _id line h

theorem ParseShaderUniformLine_eq_nullptr_witness :
    ("layout(binding=0) uniform sampler2D tex;" = "" ∨
      "layout(binding=0) uniform sampler2D tex;".data.head? = some '#' ∨
      (SplitString "layout(binding=0) uniform sampler2D tex;" ' ').head? ≠ some "uniform") ∧
    ParseShaderUniformLine exampleGL 3 "layout(binding=0) uniform sampler2D tex;" = .ok none :=
  ⟨Or.inr (Or.inr (by decide)),
    ParseShaderUniformLine_eq_nullptr exampleGL 3 "layout(binding=0) uniform sampler2D tex;"
      (Or.inr (Or.inr (by decide)))⟩

/-! ## The constructor -/

theorem getline_spec (d : Char) (stream : List Char) :
    splitChars d stream = (getline d stream).1 ::
      (match (getline d stream).2 with
       | some rest => splitChars d rest
       | none => []) := by
  induction stream with
  | nil => simp [splitChars, getline]
  | cons c cs ih =>
    by_cases h : c = d
    · simp [splitChars, getline, h]
    · rw [splitChars, if_neg h, ih]
      simp [getline, h]

theorem getline_rest_length (d : Char) (stream rest : List Char)
    (h : (getline d stream).2 = some rest) : rest.length < stream.length := by
  induction stream with
  | nil => simp [getline] at h
  | cons c cs ih =>
    by_cases hc : c = d
    · simp [getline, hc] at h
      simp [h]
    · simp [getline, hc] at h
      have := ih h
      simp
      omega

theorem parseStream_eq (parse : String → Except Fault (Option ShaderUniform)) :
    ∀ (fuel : Nat) (stream : List Char) (acc : List ShaderUniform), stream.length < fuel →
      parseStream parse fuel stream acc =
        ((splitChars '\n' stream).mapM fun l => parse (String.mk l)).map
          fun rs => acc ++ rs.reduceOption := by
  intro fuel
  induction fuel with
  | zero => intro stream acc h; omega
  | succ fuel ih =>
    intro stream acc h
    rw [getline_spec, List.mapM_cons, parseStream]
    cases hp : parse (String.mk (getline '\n' stream).1) with
    | error e => simp [bind, Except.bind, Except.map]
    | ok r =>
      cases hr : (getline '\n' stream).2 with
      | none =>
        simp only [List.mapM_nil]
        cases r <;> simp [bind, Except.bind, Except.map, pure, Except.pure, List.reduceOption]
      | some rest =>
        have hl := getline_rest_length _ _ _ hr
        simp only [bind, Except.bind]
        rw [ih rest _ (by omega)]
        cases hm : (List.mapM (fun l => parse (String.mk l)) (splitChars '\n' rest)) with
        | error e => simp [Except.map]
        | ok rs =>
          cases r <;> simp [Except.map, pure, Except.pure, List.reduceOption]


theorem mapM_map_mk (parse : String → Except Fault (Option ShaderUniform))
    (pieces : List (List Char)) :
    (pieces.map String.mk).mapM parse = pieces.mapM fun l => parse (String.mk l) := by
  induction pieces with
  | nil => simp only [List.map_nil, List.mapM_nil]
  | cons p ps ih => simp only [List.map_cons, List.mapM_cons, ih]

theorem mapM_dropLast_empty (parse : String → Except Fault (Option ShaderUniform))
    (hparse : parse "" = .ok none) (acc : List ShaderUniform) (pieces : List (List Char))
    (h : pieces.getLast? = some []) :
    ((pieces.mapM fun l => parse (String.mk l)).map fun rs => acc ++ rs.reduceOption) =
      ((pieces.dropLast.mapM fun l => parse (String.mk l)).map
        fun rs => acc ++ rs.reduceOption) := by
  have hp : pieces = pieces.dropLast ++ [[]] := by
    have := List.dropLast_append_getLast? [] (by simpa using h)
    exact this.symm
  have he : parse (String.mk []) = .ok none := hparse
  conv_lhs => rw [hp]
  rw [List.mapM_append, List.mapM_cons, List.mapM_nil, he]
  cases hm : (List.mapM (fun l => parse (String.mk l)) pieces.dropLast) with
  | error e => simp [bind, Except.bind, Except.map]
  | ok rs =>
    simp [bind, Except.bind, Except.map, pure, Except.pure, List.reduceOption_append]

theorem parseStream_sourceLines (parse : String → Except Fault (Option ShaderUniform))
    (hparse : parse "" = .ok none) (source : String) (acc : List ShaderUniform) :
    parseStream parse (source.data.length + 1) source.data acc =
      ((sourceLines source).mapM parse).map fun rs => acc ++ rs.reduceOption := by
  rw [parseStream_eq parse _ _ _ (Nat.lt_succ_self _), sourceLines, splitChars_eq_splitOn,
    mapM_map_mk]
  by_cases h : (source.data.splitOn '\n').getLast? = some []
  · simp only [h, if_true]
    exact mapM_dropLast_empty parse hparse acc _ h
  · simp only [h, if_false]

theorem ParseShaderUniformLine_empty (gl : Driver) (_id : Nat) :
    ParseShaderUniformLine gl _id "" = .ok none := by
  simp [ParseShaderUniformLine]

theorem Shader_new_eq_mapM (gl : Driver) (vertSource fragSource : String) :
    Shader.new gl vertSource fragSource =
      ((sourceLines vertSource ++ sourceLines fragSource).mapM
        (ParseShaderUniformLine gl gl.CreateProgram)).map
        fun results => ⟨gl.CreateProgram, results.reduceOption⟩ := by
  unfold Shader.new
  simp only [parseStream_sourceLines _ (ParseShaderUniformLine_empty gl gl.CreateProgram)]
  rw [List.mapM_append]
  cases hv : (sourceLines vertSource).mapM (ParseShaderUniformLine gl gl.CreateProgram) with
  | error e => simp [bind, Except.bind, Except.map]
  | ok rv =>
    cases hf : (sourceLines fragSource).mapM (ParseShaderUniformLine gl gl.CreateProgram) with
    | error e => simp [bind, Except.bind, Except.map, hf]
    | ok rf =>
      simp [bind, Except.bind, Except.map, hf, pure, Except.pure, List.reduceOption_append]


/-- C3: for every vertex and fragment source text, the constructor yields the
uniforms that `ParseShaderUniformLine` produces for the physical lines of the
vertex source in line order, followed by those it produces for the physical
lines of the fragment source in line order, each line parsed once (a source
that ends in a line feed has the same lines as without it); it fails exactly
when the parse of one of these lines does, at the first such line. For vertex
lines `uniform int a;` and `uniform float b;` the sequence begins a(INT),
b(FLOAT). -/
theorem Shader_new_uniforms_in_line_order (gl : Driver) (vertSource fragSource : String) :
    Shader.new gl vertSource fragSource =
        ((sourceLines vertSource ++ sourceLines fragSource).mapM
          (ParseShaderUniformLine gl gl.CreateProgram)).map
          (fun results => ⟨gl.CreateProgram, results.reduceOption⟩) ∧
      Shader.new gl "uniform int a;\nuniform float b;" fragSource =
        ((sourceLines fragSource).mapM (ParseShaderUniformLine gl gl.CreateProgram)).map
          (fun results => ⟨gl.CreateProgram,
            [⟨"a", .INT, allocate gl gl.CreateProgram
                (gl.GetUniformIndices gl.CreateProgram "a") .INT⟩,
              ⟨"b", .FLOAT, allocate gl gl.CreateProgram
                (gl.GetUniformIndices gl.CreateProgram "b") .FLOAT⟩] ++
              results.reduceOption⟩) := by
  refine ⟨Shader_new_eq_mapM gl vertSource fragSource, ?_⟩
  have hl : sourceLines "uniform int a;\nuniform float b;" =
      [declarationLine "int" "a", declarationLine "float" "b"] := by decide
  rw [Shader_new_eq_mapM, hl, List.mapM_append, List.mapM_cons, List.mapM_cons, List.mapM_nil,
    ParseShaderUniformLine_of_declarationLine gl _ "int" "a" .INT (by decide) (by decide),
    ParseShaderUniformLine_of_declarationLine gl _ "float" "b" .FLOAT (by decide) (by decide)]
  cases (sourceLines fragSource).mapM (ParseShaderUniformLine gl gl.CreateProgram) with
  | error e => rfl
  | ok results =>
    simp [bind, Except.bind, pure, Except.pure, Except.map, List.reduceOption]

/-! ## SetUniform and Bind -/

theorem setUniformLoop_eq_map (name : String) (value : Storage) (us : List ShaderUniform) :
    setUniformLoop name value us =
      us.map fun u => if u.name = name then ⟨u.name, u.type, value⟩ else u := by
  induction us with
  | nil => rfl
  | cons u us ih =>
    by_cases h : u.name = name <;> simp [setUniformLoop, h, ih]

theorem updateUniformsLoop_eq_map (gl : Driver) (_id : Nat) (us : List ShaderUniform) :
    updateUniformsLoop gl _id us =
      us.map fun u => uploadFor u.type (gl.GetUniformLocation _id u.name) u.value := by
  induction us with
  | nil => rfl
  | cons u us ih =>
    rw [updateUniformsLoop, ih, List.map_cons]
    cases h : u.type <;> simp [uploadFor]

/-- C4: after `SetUniform(name, value)` every owned uniform whose name equals
`name` has `value` as its storage reference, each of them and not only the
first; the uniforms keep their names and types, position by position. -/
theorem SetUniform_overwrites_every_match (shader : Shader) (name : String) (value : Storage) :
    (shader.SetUniform name value)._uniforms.map (fun u => (u.name, u.type)) =
        shader._uniforms.map (fun u => (u.name, u.type)) ∧
      ∀ u ∈ (shader.SetUniform name value)._uniforms, u.name = name → u.value = value := by
  constructor
  · simp only [Shader.SetUniform, setUniformLoop_eq_map, List.map_map]
    apply List.map_congr_left
    intro u _
    by_cases h : u.name = name <;> simp [h]
  · intro u hu hn
    simp only [Shader.SetUniform, setUniformLoop_eq_map, List.mem_map] at hu
    obtain ⟨w, _, hw⟩ := hu
    by_cases h : w.name = name
    · rw [if_pos h] at hw
      rw [← hw]
    · rw [if_neg h] at hw
      rw [hw] at h
      exact absurd hn h

theorem SetUniform_overwrites_every_match_witness :
    (((⟨3, [⟨"tint", .VEC4, .cells [1, 2, 3, 4]⟩, ⟨"scale", .FLOAT, .cells [5]⟩,
        ⟨"tint", .VEC4, .cells [6, 7, 8, 9]⟩]⟩ : Shader).SetUniform "tint"
        (.cells [0, 0, 0, 1]))._uniforms.map (fun u => (u.name, u.type)) =
      [("tint", ShaderUniformType.VEC4), ("scale", .FLOAT), ("tint", .VEC4)]) ∧
    ((⟨"tint", .VEC4, .cells [0, 0, 0, 1]⟩ : ShaderUniform) ∈
      ((⟨3, [⟨"tint", .VEC4, .cells [1, 2, 3, 4]⟩, ⟨"scale", .FLOAT, .cells [5]⟩,
        ⟨"tint", .VEC4, .cells [6, 7, 8, 9]⟩]⟩ : Shader).SetUniform "tint"
        (.cells [0, 0, 0, 1]))._uniforms) ∧
    (⟨"tint", .VEC4, .cells [0, 0, 0, 1]⟩ : ShaderUniform).value = .cells [0, 0, 0, 1] :=
  ⟨by decide, by decide,
    (SetUniform_overwrites_every_match
      ⟨3, [⟨"tint", .VEC4, .cells [1, 2, 3, 4]⟩, ⟨"scale", .FLOAT, .cells [5]⟩,
        ⟨"tint", .VEC4, .cells [6, 7, 8, 9]⟩]⟩ "tint" (.cells [0, 0, 0, 1])).2
      ⟨"tint", .VEC4, .cells [0, 0, 0, 1]⟩ (by decide) rfl⟩

/-- C5: when the Shader owns a uniform named `name`, of whichever of the eleven
types, `SetUniform(name, v)` followed by `Bind()` issues the upload call of
that type with the location `glGetUniformLocation` resolves for `name` on the
program id as target and `v` as the storage the payload is taken from. -/
theorem SetUniform_then_Bind_uploads (gl : Driver) (shader : Shader) (name : String)
    (v : Storage) (u : ShaderUniform) (hu : u ∈ shader._uniforms) (hn : u.name = name) :
    uploadFor u.type (gl.GetUniformLocation shader._id name) v ∈
      (shader.SetUniform name v).Bind gl := by
  simp only [Shader.Bind, Shader.UpdateUniforms, Shader.SetUniform, setUniformLoop_eq_map,
    updateUniformsLoop_eq_map, List.map_map]
  apply List.mem_cons_of_mem
  rw [List.mem_map]
  exact ⟨u, hu, by simp [hn]⟩

theorem SetUniform_then_Bind_uploads_witness :
    (⟨"scale", .FLOAT, .cells [5]⟩ : ShaderUniform) ∈
      (⟨3, [⟨"a", .INT, .cells [1]⟩, ⟨"scale", .FLOAT, .cells [5]⟩]⟩ : Shader)._uniforms ∧
    (⟨"scale", .FLOAT, .cells [5]⟩ : ShaderUniform).name = "scale" ∧
    uploadFor (⟨"scale", .FLOAT, .cells [5]⟩ : ShaderUniform).type
        (exampleGL.GetUniformLocation 3 "scale") (.cells [7]) ∈
      ((⟨3, [⟨"a", .INT, .cells [1]⟩, ⟨"scale", .FLOAT, .cells [5]⟩]⟩ : Shader).SetUniform
        "scale" (.cells [7])).Bind exampleGL :=
  ⟨by decide, rfl,
    SetUniform_then_Bind_uploads exampleGL ⟨3, [⟨"a", .INT, .cells [1]⟩,
      ⟨"scale", .FLOAT, .cells [5]⟩]⟩ "scale" (.cells [7]) ⟨"scale", .FLOAT, .cells [5]⟩
      (by decide) rfl⟩

theorem Bind_upload_at (gl : Driver) (shader : Shader) (i : Nat) (u : ShaderUniform)
    (h : shader._uniforms[i]? = some u) :
    (shader.Bind gl)[i + 1]? =
      some (uploadFor u.type (gl.GetUniformLocation shader._id u.name) u.value) := by
  simp only [Shader.Bind, Shader.UpdateUniforms, updateUniformsLoop_eq_map,
    List.getElem?_cons_succ, List.getElem?_map, h, Option.map_some']

/-- C6: `Bind()` first makes the program with the Shader's id active and then
issues, for every owned uniform in sequence order, exactly one upload call: to
the location resolved by the uniform's name, of the kind fixed by the
uniform's type, from the uniform's storage. The upload calls of a Bind are as
many as the owned uniforms. Type by type, the call that follows
`glUseProgram` at the position of the uniform is: for INT and BOOL
`glUniform1i` with the first cell of the storage, for UINT `glUniform1ui` and
for FLOAT `glUniform1f` with that cell; for VEC2, VEC3, VEC4 `glUniform2fv`,
`3fv`, `4fv` with count 1 and the storage; for MAT2, MAT3, MAT4
`glUniformMatrix2fv`, `3fv`, `4fv` with count 1, no transpose and the storage;
for TEX2D `glUniform1i` with the image unit of the referenced `Texture`. -/
theorem Bind_calls (gl : Driver) (shader : Shader) :
    shader.Bind gl = GLCall.UseProgram shader._id ::
        shader._uniforms.map
          (fun u => uploadFor u.type (gl.GetUniformLocation shader._id u.name) u.value) ∧
      ((shader.Bind gl).filter GLCall.isUpload).length = shader._uniforms.length ∧
      (∀ (i : Nat) (name : String) (w : Word) (ws : List Word),
        shader._uniforms[i]? = some ⟨name, .INT, .cells (w :: ws)⟩ →
        (shader.Bind gl)[i + 1]? =
          some (.Uniform1i (gl.GetUniformLocation shader._id name) (some w))) ∧
      (∀ (i : Nat) (name : String) (w : Word) (ws : List Word),
        shader._uniforms[i]? = some ⟨name, .BOOL, .cells (w :: ws)⟩ →
        (shader.Bind gl)[i + 1]? =
          some (.Uniform1i (gl.GetUniformLocation shader._id name) (some w))) ∧
      (∀ (i : Nat) (name : String) (w : Word) (ws : List Word),
        shader._uniforms[i]? = some ⟨name, .UINT, .cells (w :: ws)⟩ →
        (shader.Bind gl)[i + 1]? =
          some (.Uniform1ui (gl.GetUniformLocation shader._id name) (some w))) ∧
      (∀ (i : Nat) (name : String) (w : Word) (ws : List Word),
        shader._uniforms[i]? = some ⟨name, .FLOAT, .cells (w :: ws)⟩ →
        (shader.Bind gl)[i + 1]? =
          some (.Uniform1f (gl.GetUniformLocation shader._id name) (some w))) ∧
      (∀ (i : Nat) (name : String) (value : Storage),
        shader._uniforms[i]? = some ⟨name, .VEC2, value⟩ →
        (shader.Bind gl)[i + 1]? =
          some (.Uniform2fv (gl.GetUniformLocation shader._id name) 1 value)) ∧
      (∀ (i : Nat) (name : String) (value : Storage),
        shader._uniforms[i]? = some ⟨name, .VEC3, value⟩ →
        (shader.Bind gl)[i + 1]? =
          some (.Uniform3fv (gl.GetUniformLocation shader._id name) 1 value)) ∧
      (∀ (i : Nat) (name : String) (value : Storage),
        shader._uniforms[i]? = some ⟨name, .VEC4, value⟩ →
        (shader.Bind gl)[i + 1]? =
          some (.Uniform4fv (gl.GetUniformLocation shader._id name) 1 value)) ∧
      (∀ (i : Nat) (name : String) (value : Storage),
        shader._uniforms[i]? = some ⟨name, .MAT2, value⟩ →
        (shader.Bind gl)[i + 1]? =
          some (.UniformMatrix2fv (gl.GetUniformLocation shader._id name) 1 false value)) ∧
      (∀ (i : Nat) (name : String) (value : Storage),
        shader._uniforms[i]? = some ⟨name, .MAT3, value⟩ →
        (shader.Bind gl)[i + 1]? =
          some (.UniformMatrix3fv (gl.GetUniformLocation shader._id name) 1 false value)) ∧
      (∀ (i : Nat) (name : String) (value : Storage),
        shader._uniforms[i]? = some ⟨name, .MAT4, value⟩ →
        (shader.Bind gl)[i + 1]? =
          some (.UniformMatrix4fv (gl.GetUniformLocation shader._id name) 1 false value)) ∧
      (∀ (i : Nat) (name : String) (t : Texture),
        shader._uniforms[i]? = some ⟨name, .TEX2D, .texture t⟩ →
        (shader.Bind gl)[i + 1]? =
          some (.Uniform1i (gl.GetUniformLocation shader._id name) (some t.imageUnit))) := by
  have h : shader.Bind gl = GLCall.UseProgram shader._id ::
      shader._uniforms.map
        (fun u => uploadFor u.type (gl.GetUniformLocation shader._id u.name) u.value) := by
    simp only [Shader.Bind, Shader.UpdateUniforms, updateUniformsLoop_eq_map]
  have hlen : ((shader.Bind gl).filter GLCall.isUpload).length = shader._uniforms.length := by
    rw [h, List.filter_cons_of_neg (by simp [GLCall.isUpload]), List.filter_eq_self.2,
      List.length_map]
    intro c hc
    rw [List.mem_map] at hc
    obtain ⟨u, _, rfl⟩ := hc
    cases h : u.type <;> simp [uploadFor, GLCall.isUpload]
  exact ⟨h, hlen,
    fun i _ _ _ hu => Bind_upload_at gl shader i _ hu,
    fun i _ _ _ hu => Bind_upload_at gl shader i _ hu,
    fun i _ _ _ hu => Bind_upload_at gl shader i _ hu,
    fun i _ _ _ hu => Bind_upload_at gl shader i _ hu,
    fun i _ _ hu => Bind_upload_at gl shader i _ hu,
    fun i _ _ hu => Bind_upload_at gl shader i _ hu,
    fun i _ _ hu => Bind_upload_at gl shader i _ hu,
    fun i _ _ hu => Bind_upload_at gl shader i _ hu,
    fun i _ _ hu => Bind_upload_at gl shader i _ hu,
    fun i _ _ hu => Bind_upload_at gl shader i _ hu,
    fun i _ _ hu => Bind_upload_at gl shader i _ hu⟩

theorem Bind_calls_witness :
    (⟨3, [⟨"gain", .FLOAT, .cells [5]⟩, ⟨"diffuse", .TEX2D, .texture ⟨9, 2⟩⟩]⟩ :
        Shader)._uniforms[1]? = some ⟨"diffuse", .TEX2D, .texture ⟨9, 2⟩⟩ ∧
    ((⟨3, [⟨"gain", .FLOAT, .cells [5]⟩, ⟨"diffuse", .TEX2D, .texture ⟨9, 2⟩⟩]⟩ :
        Shader).Bind exampleGL)[1 + 1]? =
      some (.Uniform1i
        (exampleGL.GetUniformLocation
          (⟨3, [⟨"gain", .FLOAT, .cells [5]⟩, ⟨"diffuse", .TEX2D, .texture ⟨9, 2⟩⟩]⟩ :
            Shader)._id "diffuse")
        (some (⟨9, 2⟩ : Texture).imageUnit)) :=
  ⟨rfl,
    (Bind_calls exampleGL
      ⟨3, [⟨"gain", .FLOAT, .cells [5]⟩, ⟨"diffuse", .TEX2D, .texture ⟨9, 2⟩⟩]⟩).2.2.2.2.2.2.2.2.2.2.2.2
      1 "diffuse" ⟨9, 2⟩ rfl⟩

/-! ## Failures of the parser -/

/-- C7: the parser is not total with a well-formed result. On the line
`uniform`, and on `uniform int`, it reads `splitLine[2]` past the end of the
token vector; on `uniform int  a;`, whose third token is empty, it calls
`name.at` past the end of the name; on `uniform ivec2 a;` it reaches
`switch(type)` with `type` never assigned. None of these runs returns
`nullptr` or a populated `ShaderUniform`. The constructor meets the first of
them on a source that breaks the line after the word `uniform`. -/
theorem ParseShaderUniformLine_faults (gl : Driver) (_id : Nat) :
    ParseShaderUniformLine gl _id "uniform" = .error .tokenOutOfRange ∧
    ParseShaderUniformLine gl _id "uniform int" = .error .tokenOutOfRange ∧
    ParseShaderUniformLine gl _id "uniform int  a;" = .error .charOutOfRange ∧
    ParseShaderUniformLine gl _id "uniform ivec2 a;" = .error .uninitializedType ∧
    Shader.new gl "uniform\nfloat scale;" "" = .error .tokenOutOfRange :=
  ⟨rfl, rfl, rfl, rfl, rfl⟩

/-- C8: the keyword at token[1] is resolved to a type exactly when it is one
of the eleven recognised strings, compared as they are written. For every
other keyword, in a line `uniform <keyword> <name>;`, no branch of the chain
assigns the local `type`, and yet the line is not rejected: the parser does
not return `nullptr`, it goes on to the `switch` on the never-assigned `type`
and to the construction of a `ShaderUniform` from it. -/
theorem unrecognized_keyword_is_not_rejected (gl : Driver) (_id : Nat)
    (keyword name : String) (hk : ' ' ∉ keyword.data) (hn : ' ' ∉ name.data)
    (hu : keyword ∉ recognizedKeywords) :
    (∀ k type, typeOfKeyword k = some type ↔ (k, type) ∈ keywordTable) ∧
    typeOfKeyword keyword = none ∧
    ParseShaderUniformLine gl _id (declarationLine keyword name) ≠ .ok none := by
  have hnone : typeOfKeyword keyword = none := by
    cases h : typeOfKeyword keyword with
    | none => rfl
    | some type =>
      have hm : (keyword, type).1 ∈ keywordTable.map Prod.fst :=
        List.mem_map_of_mem _ ((typeOfKeyword_iff keyword type).1 h)
      exact absurd hm hu
  refine ⟨typeOfKeyword_iff, hnone, ?_⟩
  rw [ParseShaderUniformLine_of_tokens gl _id _ keyword (name ++ ";") []
    (declarationLine_data_ne_nil keyword name) (declarationLine_head keyword name)
    (SplitString_declarationLine keyword name hk hn),
    stripTerminator_append_semicolon, hnone]
  intro h
  cases h

theorem unrecognized_keyword_is_not_rejected_witness :
    ' ' ∉ "samplerCube".data ∧ ' ' ∉ "sky".data ∧
    "samplerCube" ∉ recognizedKeywords ∧
    (∀ k type, typeOfKeyword k = some type ↔ (k, type) ∈ keywordTable) ∧
    typeOfKeyword "samplerCube" = none ∧
    ParseShaderUniformLine exampleGL 3 (declarationLine "samplerCube" "sky") ≠ .ok none :=
  ⟨by decide, by decide, by decide,
    unrecognized_keyword_is_not_rejected exampleGL 3 "samplerCube" "sky"
      (by decide) (by decide) (by decide)⟩

/-- C9: the storage is not initialised from the location `Bind()` resolves.
The parser reads back at the uniform index that `glGetUniformIndices` reports
for the name, `Bind()` uploads to the location `glGetUniformLocation`
reports. With a driver that gives `b` the index 1 and the location 4, the
constructed Shader holds for `b` the value found at location 1 (100), the
program holds 400 for `b`, and a `Bind()` with no edit in between uploads 100
to location 4. -/
theorem readBack_uses_index_not_location :
    Shader.new exampleGL "uniform int a;\nlayout(location = 4) uniform float b;"
        "uniform float b;" =
      .ok ⟨3, [⟨"a", .INT, .cells [0]⟩, ⟨"b", .FLOAT, .cells [100]⟩]⟩ ∧
    exampleGL.GetUniformfv 3 (exampleGL.GetUniformLocation 3 "b") 0 = 400 ∧
    (⟨3, [⟨"a", .INT, .cells [0]⟩, ⟨"b", .FLOAT, .cells [100]⟩]⟩ : Shader).Bind exampleGL =
      [.UseProgram 3, .Uniform1i 0 (some 0), .Uniform1f 4 (some 100)] := by
  decide

/-! ## Texture uniforms -/

theorem mapM_eq_of_forall_none (parse : String → Except Fault (Option ShaderUniform))
    (lines : List String) (h : ∀ line ∈ lines, parse line = .ok none) :
    lines.mapM parse = .ok (lines.map fun _ => none) := by
  induction lines with
  | nil => rfl
  | cons l ls ih =>
    rw [List.mapM_cons, h l (List.mem_cons_self _ _),
      ih fun line hl => h line (List.mem_cons_of_mem _ hl)]
    rfl

theorem reduceOption_map_none (lines : List String) :
    (lines.map fun _ => (none : Option ShaderUniform)).reduceOption = [] := by
  induction lines with
  | nil => rfl
  | cons l ls ih => simp [List.reduceOption]

theorem Shader_new_of_no_vertex_uniform (gl : Driver) (vertSource fragSource : String)
    (keyword name : String) (type : ShaderUniformType)
    (hv : ∀ line ∈ sourceLines vertSource, (SplitString line ' ').head? ≠ some "uniform")
    (hf : sourceLines fragSource = [declarationLine keyword name])
    (hk : (keyword, type) ∈ keywordTable) (hn : ' ' ∉ name.data) :
    Shader.new gl vertSource fragSource =
      .ok ⟨gl.CreateProgram, [⟨name, type,
        allocate gl gl.CreateProgram (gl.GetUniformIndices gl.CreateProgram name) type⟩]⟩ := by
  rw [Shader_new_eq_mapM, List.mapM_append,
    mapM_eq_of_forall_none _ _ fun line hl =>
      ParseShaderUniformLine_of_first_token gl _ line (Or.inr (Or.inr (hv line hl))),
    hf, List.mapM_cons, List.mapM_nil,
    ParseShaderUniformLine_of_declarationLine gl _ keyword name type hk hn]
  simp [bind, Except.bind, pure, Except.pure, Except.map, List.reduceOption_append,
    reduceOption_map_none, List.reduceOption]

/-- C10: when no line of the vertex source has `uniform` as its first token
and the fragment source is the one line `uniform sampler2D diffuse;`, with or
without a line feed after it, the constructed Shader owns exactly one
uniform: its name is `diffuse`, its type TEX2D and its value a `Texture` as
the default constructor leaves it, whose GPU id is 0. No read-back takes
part: a driver that differs in what its queries and read-backs return yields
the same Shader. -/
theorem sampler2D_gets_placeholder_texture (gl : Driver) (vertSource fragSource : String)
    (hv : ∀ line ∈ sourceLines vertSource, (SplitString line ' ').head? ≠ some "uniform")
    (hf : fragSource = "uniform sampler2D diffuse;" ∨
      fragSource = "uniform sampler2D diffuse;\n") :
    Shader.new gl vertSource fragSource =
        .ok ⟨gl.CreateProgram, [⟨"diffuse", .TEX2D, .texture (Texture.new gl)⟩]⟩ ∧
      (Texture.new gl).id = 0 ∧
      ∀ gl' : Driver, gl'.CreateProgram = gl.CreateProgram →
        gl'.defaultImageUnit = gl.defaultImageUnit →
        Shader.new gl' vertSource fragSource = Shader.new gl vertSource fragSource := by
  have hl : sourceLines fragSource = [declarationLine "sampler2D" "diffuse"] := by
    rcases hf with hf | hf <;> (rw [hf]; decide)
  have key : ∀ g : Driver, Shader.new g vertSource fragSource =
      .ok ⟨g.CreateProgram, [⟨"diffuse", .TEX2D, .texture (Texture.new g)⟩]⟩ := fun g =>
    Shader_new_of_no_vertex_uniform g vertSource fragSource "sampler2D" "diffuse" .TEX2D hv hl
      (by decide) (by decide)
  refine ⟨key gl, rfl, ?_⟩
  intro gl' h1 h2
  rw [key gl, key gl', h1, Texture.new, Texture.new, h2]

theorem sampler2D_gets_placeholder_texture_witness :
    (∀ line ∈ sourceLines "#version 330\nin vec3 position;\nvoid main();\n",
      (SplitString line ' ').head? ≠ some "uniform") ∧
    ("uniform sampler2D diffuse;\n" = "uniform sampler2D diffuse;" ∨
      "uniform sampler2D diffuse;\n" = "uniform sampler2D diffuse;\n") ∧
    (Shader.new exampleGL "#version 330\nin vec3 position;\nvoid main();\n"
        "uniform sampler2D diffuse;\n" =
        .ok ⟨exampleGL.CreateProgram,
          [⟨"diffuse", .TEX2D, .texture (Texture.new exampleGL)⟩]⟩ ∧
      (Texture.new exampleGL).id = 0 ∧
      ∀ gl' : Driver, gl'.CreateProgram = exampleGL.CreateProgram →
        gl'.defaultImageUnit = exampleGL.defaultImageUnit →
        Shader.new gl' "#version 330\nin vec3 position;\nvoid main();\n"
            "uniform sampler2D diffuse;\n" =
          Shader.new exampleGL "#version 330\nin vec3 position;\nvoid main();\n"
            "uniform sampler2D diffuse;\n") :=
  ⟨by decide, Or.inr rfl,
    sampler2D_gets_placeholder_texture exampleGL
      "#version 330\nin vec3 position;\nvoid main();\n" "uniform sampler2D diffuse;\n"
      (by decide) (Or.inr rfl)⟩

/-! ## Sequences of calls -/

theorem calls_of_no_SetUniform (gl : Driver) (shader : Shader) (cs : List ShaderCall)
    (h : ∀ c ∈ cs, c.isSetUniform = false) : (shader.calls gl cs).1 = shader := by
  induction cs with
  | nil => rfl
  | cons c cs ih =>
    have hc : (shader.call gl c).1 = shader := by
      cases c with
      | SetUniform name value => simpa [ShaderCall.isSetUniform] using h _ (List.mem_cons_self _ _)
      | Bind => rfl
      | Unbind => rfl
    rw [Shader.calls, hc]
    exact ih fun c' hc' => h c' (List.mem_cons_of_mem _ hc')

/-- C11: `Bind()` leaves the Shader as it is (its id and every owned uniform's
name, type and value), and so do the calls that are no `SetUniform`; a second
`Bind()`, straight after the first or with such calls in between, issues the
same sequence of driver calls with the same values as the first. -/
theorem Bind_twice_issues_same_calls (gl : Driver) (shader : Shader)
    (between : List ShaderCall) (h : ∀ c ∈ between, c.isSetUniform = false) :
    (shader.call gl .Bind).1 = shader ∧
      (((shader.call gl .Bind).1.calls gl between).1.call gl .Bind).1 = shader ∧
      (((shader.call gl .Bind).1.calls gl between).1.call gl .Bind).2 =
        (shader.call gl .Bind).2 := by
  have h1 : (shader.call gl .Bind).1 = shader := rfl
  rw [h1, calls_of_no_SetUniform gl shader between h]
  exact ⟨rfl, rfl, rfl⟩

theorem Bind_twice_issues_same_calls_witness :
    (∀ c ∈ [ShaderCall.Unbind], c.isSetUniform = false) ∧
    (((⟨3, [⟨"a", .INT, .cells [1]⟩, ⟨"tex", .TEX2D, .texture ⟨0, 2⟩⟩]⟩ : Shader).call
        exampleGL .Bind).1 = ⟨3, [⟨"a", .INT, .cells [1]⟩, ⟨"tex", .TEX2D, .texture ⟨0, 2⟩⟩]⟩ ∧
      ((((⟨3, [⟨"a", .INT, .cells [1]⟩, ⟨"tex", .TEX2D, .texture ⟨0, 2⟩⟩]⟩ : Shader).call
        exampleGL .Bind).1.calls exampleGL [.Unbind]).1.call exampleGL .Bind).1 =
        ⟨3, [⟨"a", .INT, .cells [1]⟩, ⟨"tex", .TEX2D, .texture ⟨0, 2⟩⟩]⟩ ∧
      ((((⟨3, [⟨"a", .INT, .cells [1]⟩, ⟨"tex", .TEX2D, .texture ⟨0, 2⟩⟩]⟩ : Shader).call
        exampleGL .Bind).1.calls exampleGL [.Unbind]).1.call exampleGL .Bind).2 =
        ((⟨3, [⟨"a", .INT, .cells [1]⟩, ⟨"tex", .TEX2D, .texture ⟨0, 2⟩⟩]⟩ : Shader).call
          exampleGL .Bind).2) :=
  ⟨by decide,
    Bind_twice_issues_same_calls exampleGL
      ⟨3, [⟨"a", .INT, .cells [1]⟩, ⟨"tex", .TEX2D, .texture ⟨0, 2⟩⟩]⟩ [.Unbind] (by decide)⟩

theorem setUniformLoop_eq_self (name : String) (value : Storage) (us : List ShaderUniform)
    (h : ∀ u ∈ us, u.name ≠ name) : setUniformLoop name value us = us := by
  induction us with
  | nil => rfl
  | cons u us ih =>
    rw [setUniformLoop, if_neg (h u (List.mem_cons_self _ _)),
      ih fun w hw => h w (List.mem_cons_of_mem _ hw)]

/-- C16: `SetUniform(name, value)` changes nothing but the value of the
uniforms named `name`: the program id, the length and order of the uniform
sequence, every uniform's name and type, and the value of every uniform with
another name stay as they were; when no owned uniform is named `name` the
Shader is unchanged. The operation is total: it raises no error. -/
theorem SetUniform_frame (shader : Shader) (name : String) (value : Storage) :
    (shader.SetUniform name value)._id = shader._id ∧
      (shader.SetUniform name value)._uniforms.length = shader._uniforms.length ∧
      (∀ (i : Nat) (u : ShaderUniform), shader._uniforms[i]? = some u →
        ∃ w, (shader.SetUniform name value)._uniforms[i]? = some w ∧
          w.name = u.name ∧ w.type = u.type ∧ (u.name ≠ name → w.value = u.value)) ∧
      ((∀ u ∈ shader._uniforms, u.name ≠ name) → shader.SetUniform name value = shader) := by
  refine ⟨rfl, ?_, ?_, ?_⟩
  · simp [Shader.SetUniform, setUniformLoop_eq_map]
  · intro i u hu
    simp only [Shader.SetUniform, setUniformLoop_eq_map, List.getElem?_map, hu, Option.map_some']
    by_cases h : u.name = name
    · exact ⟨⟨u.name, u.type, value⟩, by rw [if_pos h], rfl, rfl, fun hn => absurd h hn⟩
    · exact ⟨u, by rw [if_neg h], rfl, rfl, fun _ => rfl⟩
  · intro h
    simp only [Shader.SetUniform, setUniformLoop_eq_self name value _ h]

theorem SetUniform_frame_witness :
    (∀ u ∈ (⟨3, [⟨"a", .INT, .cells [1]⟩, ⟨"b", .FLOAT, .cells [5]⟩]⟩ : Shader)._uniforms,
      u.name ≠ "missing") ∧
    (⟨3, [⟨"a", .INT, .cells [1]⟩, ⟨"b", .FLOAT, .cells [5]⟩]⟩ : Shader).SetUniform
        "missing" (.cells [9]) =
      ⟨3, [⟨"a", .INT, .cells [1]⟩, ⟨"b", .FLOAT, .cells [5]⟩]⟩ :=
  ⟨by decide,
    (SetUniform_frame ⟨3, [⟨"a", .INT, .cells [1]⟩, ⟨"b", .FLOAT, .cells [5]⟩]⟩
      "missing" (.cells [9])).2.2.2 (by decide)⟩

/-! ## Storage sizes -/

theorem storageFits_allocate (gl : Driver) (_id uniformIndex : Nat) (type : ShaderUniformType) :
    storageFits type (allocate gl _id uniformIndex type) = true := by
  cases type <;> simp [storageFits, sizeOfType, allocate, readBack]

theorem ParseShaderUniformLine_value (gl : Driver) (_id : Nat) (line : String)
    (u : ShaderUniform) (h : ParseShaderUniformLine gl _id line = .ok (some u)) :
    u.value = allocate gl _id (gl.GetUniformIndices _id u.name) u.type := by
  unfold ParseShaderUniformLine at h
  split_ifs at h with h0
  · cases h
  · simp only [bind, Except.bind] at h
    split at h
    · cases h
    · split_ifs at h with h1
      · split at h
        · cases h
        · split at h
          · cases h
          · split at h
            · cases h
            · split at h
              · cases h
              · cases h
                rfl
      · cases h

theorem mapM_ok_mem {α β : Type} (f : α → Except Fault β) :
    ∀ (l : List α) (rs : List β), l.mapM f = .ok rs → ∀ r ∈ rs, ∃ x ∈ l, f x = .ok r := by
  intro l
  induction l with
  | nil =>
    intro rs h r hr
    rw [List.mapM_nil] at h
    cases h
    cases hr
  | cons a l ih =>
    intro rs h r hr
    rw [List.mapM_cons] at h
    cases ha : f a with
    | error e => rw [ha] at h; cases h
    | ok b =>
      cases hl : l.mapM f with
      | error e => rw [ha, hl] at h; cases h
      | ok bs =>
        rw [ha, hl] at h
        cases h
        rcases List.mem_cons.1 hr with hr | hr
        · exact ⟨a, List.mem_cons_self _ _, by rw [ha, hr]⟩
        · obtain ⟨x, hx, hfx⟩ := ih bs hl r hr
          exact ⟨x, List.mem_cons_of_mem _ hx, hfx⟩

theorem Shader_new_uniform_parsed (gl : Driver) (vertSource fragSource : String)
    (shader : Shader) (h : Shader.new gl vertSource fragSource = .ok shader) :
    shader._id = gl.CreateProgram ∧
      ∀ u ∈ shader._uniforms, ∃ line,
        ParseShaderUniformLine gl gl.CreateProgram line = .ok (some u) := by
  rw [Shader_new_eq_mapM] at h
  cases hm : (sourceLines vertSource ++ sourceLines fragSource).mapM
      (ParseShaderUniformLine gl gl.CreateProgram) with
  | error e => rw [hm] at h; cases h
  | ok rs =>
    rw [hm] at h
    cases h
    refine ⟨rfl, ?_⟩
    intro u hu
    have hu' : some u ∈ rs := List.reduceOption_mem_iff.1 hu
    obtain ⟨line, _, hl⟩ := mapM_ok_mem _ _ rs hm (some u) hu'
    exact ⟨line, hl⟩

theorem Shader_new_storageFits (gl : Driver) (vertSource fragSource : String)
    (shader : Shader) (h : Shader.new gl vertSource fragSource = .ok shader) :
    shader.storageFits = true := by
  obtain ⟨_, hu⟩ := Shader_new_uniform_parsed gl vertSource fragSource shader h
  simp only [Shader.storageFits, List.all_eq_true]
  intro u hmem
  obtain ⟨line, hl⟩ := hu u hmem
  rw [ParseShaderUniformLine_value gl _ line u hl]
  exact storageFits_allocate _ _ _ _

theorem call_storageFits (gl : Driver) (shader : Shader) (c : ShaderCall)
    (hs : shader.storageFits = true) (hc : c.fits shader = true) :
    (shader.call gl c).1.storageFits = true := by
  cases c with
  | Bind => exact hs
  | Unbind => exact hs
  | SetUniform name value =>
    simp only [Shader.storageFits, List.all_eq_true, ShaderCall.fits, Shader.call,
      Shader.SetUniform, setUniformLoop_eq_map, List.mem_map] at *
    rintro w ⟨u, hu, rfl⟩
    by_cases h : u.name = name
    · rw [if_pos h]
      have := hc u hu
      simpa [h] using this
    · rw [if_neg h]
      exact hs u hu

theorem calls_storageFits (gl : Driver) (cs : List ShaderCall) :
    ∀ shader : Shader, shader.storageFits = true → shader.callsFit gl cs = true →
      (shader.calls gl cs).1.storageFits = true := by
  induction cs with
  | nil => intro shader hs _; exact hs
  | cons c cs ih =>
    intro shader hs hc
    simp only [Shader.callsFit, Bool.and_eq_true] at hc
    exact ih _ (call_storageFits gl shader c hs hc.1) hc.2

/-- C15, as the code has it: the parser allocates storage of exactly
`SizeOf(type)` cells for every non-texture uniform, `Bind` and `Unbind`
replace no storage, and `SetUniform` installs the storage it is handed
without a check of its size. So the storage-size invariant holds in the
constructed Shader and after every sequence of `SetUniform`, `Bind` and
`Unbind` calls in which each `SetUniform` hands over storage of
`SizeOf(type)` cells for every non-texture uniform it names. -/
theorem storage_size_invariant (gl : Driver) (vertSource fragSource : String)
    (shader : Shader) (calls : List ShaderCall)
    (hnew : Shader.new gl vertSource fragSource = .ok shader)
    (hfit : shader.callsFit gl calls = true) :
    shader.storageFits = true ∧ (shader.calls gl calls).1.storageFits = true :=
  ⟨Shader_new_storageFits gl vertSource fragSource shader hnew,
    calls_storageFits gl calls shader
      (Shader_new_storageFits gl vertSource fragSource shader hnew) hfit⟩

theorem storage_size_invariant_witness :
    Shader.new exampleGL "uniform vec3 dir;\nuniform mat2 m;" "uniform sampler2D tex;" =
      .ok ⟨3, [⟨"dir", .VEC3, .cells [0, 1, 2]⟩, ⟨"m", .MAT2, .cells [0, 1, 2, 3]⟩,
        ⟨"tex", .TEX2D, .texture ⟨0, 0⟩⟩]⟩ ∧
    (⟨3, [⟨"dir", .VEC3, .cells [0, 1, 2]⟩, ⟨"m", .MAT2, .cells [0, 1, 2, 3]⟩,
        ⟨"tex", .TEX2D, .texture ⟨0, 0⟩⟩]⟩ : Shader).callsFit exampleGL
      [.Bind, .SetUniform "dir" (.cells [7, 8, 9]), .Unbind,
        .SetUniform "tex" (.texture ⟨4, 1⟩), .Bind] = true ∧
    ((⟨3, [⟨"dir", .VEC3, .cells [0, 1, 2]⟩, ⟨"m", .MAT2, .cells [0, 1, 2, 3]⟩,
        ⟨"tex", .TEX2D, .texture ⟨0, 0⟩⟩]⟩ : Shader).storageFits = true ∧
      ((⟨3, [⟨"dir", .VEC3, .cells [0, 1, 2]⟩, ⟨"m", .MAT2, .cells [0, 1, 2, 3]⟩,
        ⟨"tex", .TEX2D, .texture ⟨0, 0⟩⟩]⟩ : Shader).calls exampleGL
        [.Bind, .SetUniform "dir" (.cells [7, 8, 9]), .Unbind,
          .SetUniform "tex" (.texture ⟨4, 1⟩), .Bind]).1.storageFits = true) :=
  ⟨by decide, by decide,
    storage_size_invariant exampleGL "uniform vec3 dir;\nuniform mat2 m;"
      "uniform sampler2D tex;" _ _ (by decide) (by decide)⟩

/-- C15 as stated fails: the Shader constructed from the vertex source
`uniform vec3 dir;` holds three cells for `dir`; after
`SetUniform("dir", p)` with `p` referring to a single cell, the uniform of
type VEC3 has storage of one cell, and it keeps it through `Bind` and
`Unbind`. -/
theorem SetUniform_breaks_storage_size :
    Shader.new exampleGL "uniform vec3 dir;" "" =
      .ok ⟨3, [⟨"dir", .VEC3, .cells [0, 1, 2]⟩]⟩ ∧
    ((⟨3, [⟨"dir", .VEC3, .cells [0, 1, 2]⟩]⟩ : Shader).calls exampleGL
      [.SetUniform "dir" (.cells [7]), .Bind, .Unbind]).1 =
      ⟨3, [⟨"dir", .VEC3, .cells [7]⟩]⟩ ∧
    sizeOfType .VEC3 = some 3 ∧
    (⟨3, [⟨"dir", .VEC3, .cells [7]⟩]⟩ : Shader).storageFits = false := by
  decide

/-! ## Tokens and outcome -/

theorem tokenAt_take (splitLine : List String) (i : Nat) (h : i < 3) :
    tokenAt (splitLine.take 3) i = tokenAt splitLine i := by
  simp [tokenAt, List.getElem?_take, h]

theorem tokensOutcome_take (splitLine : List String) :
    tokensOutcome (splitLine.take 3) = tokensOutcome splitLine := by
  simp only [tokensOutcome, tokenAt_take _ 0 (by decide), tokenAt_take _ 1 (by decide),
    tokenAt_take _ 2 (by decide)]

theorem splitChars_head_cons (d c : Char) (cs : List Char) (h : c ≠ d) :
    ∃ t ts, splitChars d (c :: cs) = (c :: t) :: ts := by
  rw [splitChars, if_neg h]
  cases hs : splitChars d cs with
  | nil => exact ⟨[], [], rfl⟩
  | cons t ts => exact ⟨t, ts, rfl⟩

theorem outcome_eq_tokensOutcome (gl : Driver) (_id : Nat) (line : String) :
    outcome (ParseShaderUniformLine gl _id line) = tokensOutcome (SplitString line ' ') := by
  unfold ParseShaderUniformLine
  by_cases h0 : line.data = [] ∨ line.data.head? = some '#'
  · rw [if_pos h0]
    rcases h0 with h0 | h0
    · simp [SplitString, h0, splitChars, tokensOutcome, tokenAt, outcome, Except.map, bind,
        Except.bind, String.ext_iff]
    · cases hd : line.data with
      | nil => rw [hd] at h0; cases h0
      | cons c cs =>
        rw [hd] at h0
        have hc : c = '#' := by simpa using h0
        obtain ⟨t, ts, hs⟩ := splitChars_head_cons ' ' c cs (by rw [hc]; decide)
        have hne : (String.mk (c :: t)) ≠ "uniform" := by
          rw [hc]
          intro he
          have := congrArg String.data he
          simp at this
        simp [SplitString, hd, hs, tokensOutcome, tokenAt, outcome, Except.map, bind,
          Except.bind, hne]
  · rw [if_neg h0]
    simp only [outcome, tokensOutcome, bind, Except.bind]
    cases tokenAt (SplitString line ' ') 0 with
    | error e => rfl
    | ok first =>
      by_cases hf : first = "uniform"
      · simp only [hf, if_true]
        cases tokenAt (SplitString line ' ') 2 with
        | error e => rfl
        | ok name =>
          dsimp only
          cases stripTerminator name with
          | error e => rfl
          | ok name =>
            dsimp only
            cases tokenAt (SplitString line ' ') 1 with
            | error e => rfl
            | ok keyword =>
              dsimp only
              cases typeOfKeyword keyword <;> rfl
      · simp only [hf, if_false]
        rfl

theorem outcome_eq_some (r : Except Fault (Option ShaderUniform)) (name : String)
    (type : ShaderUniformType) (h : outcome r = .ok (some (name, type))) :
    ∃ u, r = .ok (some u) ∧ u.name = name ∧ u.type = type := by
  cases r with
  | error e => cases h
  | ok o =>
    cases o with
    | none => cases h
    | some u =>
      simp only [outcome, Except.map, Option.map_some', Except.ok.injEq, Option.some.injEq,
        Prod.mk.injEq] at h
      exact ⟨u, rfl, h.1, h.2⟩

/-- C14: whether `ParseShaderUniformLine` produces a uniform, and the name and
type of it, are fixed by the first three tokens of the line: two lines that
agree on tokens 0 to 2 give the same outcome (no uniform, a uniform of the
same name and type, or the same failure) whatever the later tokens and
whatever the linked program and the state of the driver. In particular the
uniform one line yields on one driver is yielded, with the same name and
type, by the other line on a driver that reports the uniform as removed. -/
theorem outcome_fixed_by_first_three_tokens (gl gl' : Driver) (_id _id' : Nat)
    (line line' : String)
    (h : (SplitString line ' ').take 3 = (SplitString line' ' ').take 3) :
    outcome (ParseShaderUniformLine gl _id line) =
        outcome (ParseShaderUniformLine gl' _id' line') ∧
      ∀ u, ParseShaderUniformLine gl _id line = .ok (some u) →
        ParseShaderUniformLine gl' _id' line' =
          .ok (some ⟨u.name, u.type,
            allocate gl' _id' (gl'.GetUniformIndices _id' u.name) u.type⟩) := by
  have key : outcome (ParseShaderUniformLine gl _id line) =
      outcome (ParseShaderUniformLine gl' _id' line') := by
    rw [outcome_eq_tokensOutcome, outcome_eq_tokensOutcome, ← tokensOutcome_take, h,
      tokensOutcome_take]
  refine ⟨key, ?_⟩
  intro u hu
  have h1 : outcome (ParseShaderUniformLine gl' _id' line') = .ok (some (u.name, u.type)) := by
    rw [← key, hu]
    rfl
  obtain ⟨w, hw, hn, ht⟩ := outcome_eq_some _ _ _ h1
  have hv := ParseShaderUniformLine_value gl' _id' line' w hw
  rw [hw]
  cases w with
  | mk wn wt wv =>
    simp only at hn ht hv
    rw [hn, ht] at hv
    rw [hn, ht, hv]

theorem outcome_fixed_by_first_three_tokens_witness :
    (SplitString "uniform float gain = 1.0;" ' ').take 3 =
      (SplitString "uniform float gain = 2.5 * 3.0;" ' ').take 3 ∧
    (outcome (ParseShaderUniformLine exampleGL 3 "uniform float gain = 1.0;") =
        outcome (ParseShaderUniformLine eliminatedGL 5 "uniform float gain = 2.5 * 3.0;") ∧
      ∀ u, ParseShaderUniformLine exampleGL 3 "uniform float gain = 1.0;" = .ok (some u) →
        ParseShaderUniformLine eliminatedGL 5 "uniform float gain = 2.5 * 3.0;" =
          .ok (some ⟨u.name, u.type,
            allocate eliminatedGL 5 (eliminatedGL.GetUniformIndices 5 u.name) u.type⟩)) :=
  ⟨by decide,
    outcome_fixed_by_first_three_tokens exampleGL eliminatedGL 3 5
      "uniform float gain = 1.0;" "uniform float gain = 2.5 * 3.0;" (by decide)⟩

/-! ## The separator -/

theorem SplitString_bareLine (keyword name : String)
    (hk : ' ' ∉ keyword.data) (hn : ' ' ∉ name.data) :
    SplitString (bareLine keyword name) ' ' = ["uniform", keyword, name] := by
  have h0 : (bareLine keyword name).data
      = "uniform".data ++ ' ' :: (keyword.data ++ ' ' :: name.data) := by
    simp [bareLine, String.data_append]
  have h1 : ' ' ∉ "uniform".data := by decide
  rw [SplitString, h0, splitChars_append _ _ _ h1, splitChars_append _ _ _ hk,
    splitChars_single _ _ hn]
  rfl

theorem stripTerminator_of_no_semicolon (name : String) (hne : name ≠ "")
    (hs : ';' ∉ name.data) : stripTerminator name = .ok name := by
  unfold stripTerminator
  cases hl : name.data.getLast? with
  | none =>
    have : name.data = [] := List.getLast?_eq_none_iff.1 hl
    exact absurd (String.ext this) hne
  | some c =>
    have hc : c ∈ name.data := List.mem_of_getLast?_eq_some hl
    have : c ≠ ';' := fun e => hs (e ▸ hc)
    simp [this]

theorem ParseShaderUniformLine_of_bareLine (gl : Driver) (_id : Nat)
    (keyword name : String) (type : ShaderUniformType)
    (hk : (keyword, type) ∈ keywordTable) (hne : name ≠ "") (hn : ' ' ∉ name.data)
    (hs : ';' ∉ name.data) :
    ParseShaderUniformLine gl _id (bareLine keyword name) =
      .ok (some ⟨name, type, allocate gl _id (gl.GetUniformIndices _id name) type⟩) := by
  have hd : (bareLine keyword name).data
      = 'u' :: ("niform".data ++ ' ' :: (keyword.data ++ ' ' :: name.data)) := by
    simp [bareLine, String.data_append]
  rw [ParseShaderUniformLine_of_tokens gl _id _ keyword name []
    (by rw [hd]; simp) (by rw [hd]; simp)
    (SplitString_bareLine keyword name (keywordTable_no_space keyword type hk) hn),
    stripTerminator_of_no_semicolon name hne hs, (typeOfKeyword_iff keyword type).2 hk]
  rfl

theorem ParseShaderUniformLine_of_tabbedLine (gl : Driver) (_id : Nat)
    (keyword name : String) (hk : ' ' ∉ keyword.data) (hn : ' ' ∉ name.data) :
    ParseShaderUniformLine gl _id (tabbedLine keyword name) = .ok none := by
  have hd : (tabbedLine keyword name).data
      = "uniform".data ++ ('\t' :: (keyword.data ++ '\t' :: (name.data ++ [';']))) := by
    simp [tabbedLine, String.data_append]
  have hsp : ' ' ∉ (tabbedLine keyword name).data := by
    rw [hd]
    simp only [List.mem_append, List.mem_cons, List.mem_singleton, not_or]
    exact ⟨by decide, by decide, hk, by decide, hn, by decide, by simp⟩
  apply ParseShaderUniformLine_of_first_token
  right; right
  rw [SplitString, splitChars_single _ _ hsp]
  simp only [List.map_cons, List.map_nil, List.head?_cons, ne_eq, Option.some.injEq]
  intro he
  have := congrArg String.data he
  rw [hd] at this
  have hlen := congrArg List.length this
  simp at hlen

/-- C13, as the code has it: the line is split at single space characters
only (`SplitString(line, ' ')`). For every line made of `uniform`, a
recognised type keyword and an identifier, with or without a `;` at its end,
one space apart, the parser yields the uniform with that identifier as name
and the type of the keyword; the same three words with tabs in the place of
the spaces yield no uniform. -/
theorem space_is_the_only_separator (gl : Driver) (_id : Nat) (keyword name : String)
    (type : ShaderUniformType) (hk : (keyword, type) ∈ keywordTable) (hne : name ≠ "")
    (hn : ' ' ∉ name.data) (hs : ';' ∉ name.data) :
    ParseShaderUniformLine gl _id (declarationLine keyword name) =
        .ok (some ⟨name, type, allocate gl _id (gl.GetUniformIndices _id name) type⟩) ∧
      ParseShaderUniformLine gl _id (bareLine keyword name) =
        .ok (some ⟨name, type, allocate gl _id (gl.GetUniformIndices _id name) type⟩) ∧
      ParseShaderUniformLine gl _id (tabbedLine keyword name) = .ok none :=
  ⟨ParseShaderUniformLine_of_declarationLine gl _id keyword name type hk hn,
    ParseShaderUniformLine_of_bareLine gl _id keyword name type hk hne hn hs,
    ParseShaderUniformLine_of_tabbedLine gl _id keyword name
      (keywordTable_no_space keyword type hk) hn⟩

theorem space_is_the_only_separator_witness :
    ("mat4", ShaderUniformType.MAT4) ∈ keywordTable ∧ "mvp" ≠ "" ∧ ' ' ∉ "mvp".data ∧
    ';' ∉ "mvp".data ∧
    (ParseShaderUniformLine exampleGL 3 (declarationLine "mat4" "mvp") =
        .ok (some ⟨"mvp", .MAT4,
          allocate exampleGL 3 (exampleGL.GetUniformIndices 3 "mvp") .MAT4⟩) ∧
      ParseShaderUniformLine exampleGL 3 (bareLine "mat4" "mvp") =
        .ok (some ⟨"mvp", .MAT4,
          allocate exampleGL 3 (exampleGL.GetUniformIndices 3 "mvp") .MAT4⟩) ∧
      ParseShaderUniformLine exampleGL 3 (tabbedLine "mat4" "mvp") = .ok none) :=
  ⟨by decide, by decide, by decide, by decide,
    space_is_the_only_separator exampleGL 3 "mat4" "mvp" .MAT4
      (by decide) (by decide) (by decide) (by decide)⟩

/-- C13 as stated fails: with tabs between the three words the line is one
token, which is not `uniform`, and the parser returns `nullptr`; with two
spaces after `uniform` the second token is empty, no type is assigned and the
run reaches the `switch` on the never-assigned `type`, so that it does not
yield the uniform `a` of type INT, which the single-space form of the same
line yields. -/
theorem whitespace_runs_are_not_separators :
    ParseShaderUniformLine exampleGL 3 "uniform\tint\ta;" = .ok none ∧
    SplitString "uniform\tint\ta;" ' ' = ["uniform\tint\ta;"] ∧
    ParseShaderUniformLine exampleGL 3 "uniform  int a;" = .error .uninitializedType ∧
    SplitString "uniform  int a;" ' ' = ["uniform", "", "int", "a;"] ∧
    ParseShaderUniformLine exampleGL 3 "uniform int a;" =
      .ok (some ⟨"a", .INT, .cells [0]⟩) := by
  decide


/-! ## The remove button -/

theorem removeShaderButton_eq (ui : UIState) (name : String)
    (h : elementAt ui.loadedShaderNames ui.currentShader = .ok name) :
    removeShaderButton ui =
      if name ≠ "default" then
        .ok (⟨ui.loadedShaderNames,
            if "default" ∈ ui.loadedShaderNames then
              Int.ofNat (ui.loadedShaderNames.indexOf "default")
            else 0, none⟩,
          [.SetSceneShader none, .UnloadShader name])
      else .ok (ui, []) := by
  unfold removeShaderButton
  rw [h]
  simp only [bind, Except.bind, FindIndexOfElement]
  by_cases hn : name = "default"
  · simp [hn]
  · by_cases hd : "default" ∈ ui.loadedShaderNames
    · have : (Int.ofNat (List.indexOf "default" ui.loadedShaderNames)) ≠ -1 := by
        intro he
        have h1 : (0 : Int) ≤ Int.ofNat (List.indexOf "default" ui.loadedShaderNames) :=
          Int.ofNat_nonneg _
        rw [he] at h1
        exact absurd h1 (by decide)
      simp [hn, hd, this]
    · simp [hn, hd]

/-- C12: the remove button never unloads the shader named `default`. When the
selected name is `default` it has no effect at all: no unload, and the
scene's active-shader reference stays as it is. For every other selected
name it first sets the scene's active-shader reference to null, then unloads
exactly that name from the registry, and then sets the selection index to
the position of `default` in the name list, or to 0 when the list has no
`default`. -/
theorem remove_button_spares_default (ui : UIState) (name : String)
    (h : elementAt ui.loadedShaderNames ui.currentShader = .ok name) :
    (name = "default" → removeShaderButton ui = .ok (ui, [])) ∧
      (name ≠ "default" →
        removeShaderButton ui =
          .ok (⟨ui.loadedShaderNames,
              if "default" ∈ ui.loadedShaderNames then
                Int.ofNat (ui.loadedShaderNames.indexOf "default")
              else 0, none⟩,
            [.SetSceneShader none, .UnloadShader name])) ∧
      ∀ ui' effects, removeShaderButton ui = .ok (ui', effects) →
        UIEffect.UnloadShader "default" ∉ effects := by
  have key := removeShaderButton_eq ui name h
  refine ⟨fun hn => ?_, fun hn => ?_, fun ui' effects he => ?_⟩
  · rw [key, if_neg (not_not.2 hn)]
  · rw [key, if_pos hn]
  · rw [key] at he
    by_cases hn : name = "default"
    · rw [if_neg (not_not.2 hn)] at he
      cases he
      simp
    · rw [if_pos hn] at he
      cases he
      intro hmem
      rcases List.mem_cons.1 hmem with hc | hc
      · cases hc
      · rcases List.mem_cons.1 hc with hc | hc
        · cases hc
          exact hn rfl
        · cases hc

theorem remove_button_spares_default_witness :
    elementAt (⟨["toon", "default", "glow"], 2, some "glow"⟩ : UIState).loadedShaderNames
        (⟨["toon", "default", "glow"], 2, some "glow"⟩ : UIState).currentShader = .ok "glow" ∧
    (("glow" = "default" →
        removeShaderButton ⟨["toon", "default", "glow"], 2, some "glow"⟩ =
          .ok (⟨["toon", "default", "glow"], 2, some "glow"⟩, [])) ∧
      ("glow" ≠ "default" →
        removeShaderButton ⟨["toon", "default", "glow"], 2, some "glow"⟩ =
          .ok (⟨(⟨["toon", "default", "glow"], 2, some "glow"⟩ : UIState).loadedShaderNames,
              if "default" ∈
                  (⟨["toon", "default", "glow"], 2, some "glow"⟩ : UIState).loadedShaderNames
              then Int.ofNat
                ((⟨["toon", "default", "glow"], 2, some "glow"⟩ :
                  UIState).loadedShaderNames.indexOf "default")
              else 0, none⟩,
            [.SetSceneShader none, .UnloadShader "glow"])) ∧
      ∀ ui' effects, removeShaderButton ⟨["toon", "default", "glow"], 2, some "glow"⟩ =
          .ok (ui', effects) → UIEffect.UnloadShader "default" ∉ effects) :=
  ⟨by decide,
    remove_button_spares_default ⟨["toon", "default", "glow"], 2, some "glow"⟩ "glow"
      (by decide)⟩

/-! ## Shader paths -/

theorem splitChars_append_last (d : Char) (rest : List Char) (hr : d ∉ rest) :
    ∀ pre : List Char, ∃ front, front ≠ [] ∧ splitChars d (pre ++ d :: rest) = front ++ [rest] := by
  intro pre
  induction pre with
  | nil =>
    refine ⟨[[]], by simp, ?_⟩
    simp [splitChars, splitChars_single d rest hr]
  | cons c pre ih =>
    obtain ⟨front, hne, hf⟩ := ih
    by_cases hc : c = d
    · refine ⟨[] :: front, by simp, ?_⟩
      simp [splitChars, hc]
      rw [← hc] at hf ⊢
      exact hf
    · cases front with
      | nil => exact absurd rfl hne
      | cons t ts =>
        refine ⟨(c :: t) :: ts, by simp, ?_⟩
        rw [List.cons_append, splitChars, if_neg hc, hf]
        rfl

theorem elementAt_last (front : List String) (x : String) :
    elementAt (front ++ [x]) (Int.ofNat (front ++ [x]).length - 1) = .ok x := by
  have h1 : Int.ofNat (front ++ [x]).length - 1 = Int.ofNat front.length := by
    simp
  rw [h1, elementAt, if_neg (by simp)]
  simp

theorem ParseFileNameAndExtension_of_parts (path : String) (dir name ext : List Char)
    (hp : path.data = dir ++ (name ++ '.' :: ext))
    (hdir : dir = [] ∨ dir.getLast? = some '/')
    (hn1 : '/' ∉ name) (hn2 : '.' ∉ name) (he1 : '/' ∉ ext) (he2 : '.' ∉ ext) :
    ParseFileNameAndExtension path = .ok (String.mk name, String.mk ext) := by
  have hfile : '/' ∉ name ++ '.' :: ext := by
    simp only [List.mem_append, List.mem_cons, not_or]
    exact ⟨hn1, by decide, he1⟩
  have hsplit : ∃ front : List String,
      SplitString path '/' = front ++ [String.mk (name ++ '.' :: ext)] := by
    rcases hdir with hd | hd
    · refine ⟨[], ?_⟩
      rw [SplitString, hp, hd, List.nil_append, splitChars_single _ _ hfile]
      rfl
    · obtain ⟨pre, hpre⟩ : ∃ pre, dir = pre ++ ['/'] := by
        have hne : dir ≠ [] := by
          intro h0
          rw [h0] at hd
          cases hd
        refine ⟨dir.dropLast, ?_⟩
        have := List.dropLast_append_getLast? '/' (by simpa using hd)
        exact this.symm
      obtain ⟨front, _, hf⟩ := splitChars_append_last '/' _ hfile pre
      refine ⟨front.map String.mk, ?_⟩
      rw [SplitString, hp, hpre, List.append_assoc, List.singleton_append, hf]
      simp
  obtain ⟨front, hfront⟩ := hsplit
  have hdot : SplitString (String.mk (name ++ '.' :: ext)) '.' = [String.mk name, String.mk ext] := by
    rw [SplitString]
    show List.map String.mk (splitChars '.' (name ++ '.' :: ext)) = _
    rw [splitChars_append _ _ _ hn2, splitChars_single _ _ he2]
    rfl
  unfold ParseFileNameAndExtension
  simp only [hfront, elementAt_last, bind, Except.bind, hdot]
  rfl

theorem vertexPath_data (stem : String) : (vertexPath stem).data = stem.data ++ ['.', 'v', 's'] := by
  simp [vertexPath, String.data_append]

theorem fragmentPath_data (stem : String) :
    (fragmentPath stem).data = stem.data ++ ['.', 'f', 's'] := by
  simp [fragmentPath, String.data_append]

theorem vertexPath_ne_empty (stem : String) : vertexPath stem ≠ "" := by
  intro h
  have := congrArg String.data h
  rw [vertexPath_data] at this
  simp at this

theorem fragmentPath_ne_empty (stem : String) : fragmentPath stem ≠ "" := by
  intro h
  have := congrArg String.data h
  rw [fragmentPath_data] at this
  simp at this

theorem vertexPath_ne_fragmentPath (a b : String) : vertexPath a ≠ fragmentPath b := by
  intro h
  have := congrArg String.data h
  rw [vertexPath_data, fragmentPath_data] at this
  have h2 := (List.append_inj' this rfl).2
  simp at h2

theorem vertexPath_injective (a b : String) (h : vertexPath a = vertexPath b) : a = b := by
  have := congrArg String.data h
  rw [vertexPath_data, vertexPath_data] at this
  exact String.ext (List.append_cancel_right this)

theorem fragmentPath_injective (a b : String) (h : fragmentPath a = fragmentPath b) : a = b := by
  have := congrArg String.data h
  rw [fragmentPath_data, fragmentPath_data] at this
  exact String.ext (List.append_cancel_right this)

theorem substr0_vertexPath (stem : String) :
    substr0 (vertexPath stem) (lengthMinus3 (vertexPath stem).data.length) = stem := by
  rw [substr0, vertexPath_data]
  have : lengthMinus3 (stem.data ++ ['.', 'v', 's']).length = stem.data.length := by
    simp [lengthMinus3]
  rw [this, List.take_left']
  rfl

theorem substr0_fragmentPath (stem : String) :
    substr0 (fragmentPath stem) (lengthMinus3 (fragmentPath stem).data.length) = stem := by
  rw [substr0, fragmentPath_data]
  have : lengthMinus3 (stem.data ++ ['.', 'f', 's']).length = stem.data.length := by
    simp [lengthMinus3]
  rw [this, List.take_left']
  rfl

/-- What the loop body finds out about a shader path. -/
theorem IsShaderPath_cases (path : String) (h : IsShaderPath path) :
    ∃ stem : String,
      (path = vertexPath stem ∧ ∃ n, ParseFileNameAndExtension path = .ok (n, "vs")) ∨
      (path = fragmentPath stem ∧ ∃ n, ParseFileNameAndExtension path = .ok (n, "fs")) := by
  obtain ⟨dir, name, ext, hp, hdir, hn1, hn2, hext⟩ := h
  refine ⟨String.mk (dir ++ name), ?_⟩
  rcases hext with he | he
  · left
    subst he
    refine ⟨String.ext ?_, String.mk name, ?_⟩
    · rw [vertexPath_data, hp]
      simp
    · exact ParseFileNameAndExtension_of_parts path dir name _ hp hdir hn1 hn2
        (by decide) (by decide)
  · right
    subst he
    refine ⟨String.ext ?_, String.mk name, ?_⟩
    · rw [fragmentPath_data, hp]
      simp
    · exact ParseFileNameAndExtension_of_parts path dir name _ hp hdir hn1 hn2
        (by decide) (by decide)

/-! ## One round of the pairing loop -/

theorem index_stays_zero (n : Nat) :
    (if (0 : Int) ≤ 0 ∧ (0 : Int) < Int.ofNat n then (0 : Int) else Int.ofNat n) = 0 := by
  cases n with
  | zero => simp
  | succ n =>
    rw [if_pos]
    exact ⟨le_refl _, by simp⟩

theorem elementAt_zero_cons (p : String) (rest : List String) :
    elementAt (p :: rest) 0 = .ok p := by
  simp [elementAt]

theorem pairStep_vs_found (stem n : String) (rest : List String)
    (sources : List (String × String))
    (hparse : ParseFileNameAndExtension (vertexPath stem) = .ok (n, "vs"))
    (hq : fragmentPath stem ∈ rest)
    (hnew : (vertexPath stem, fragmentPath stem) ∉ sources) :
    pairStep ⟨vertexPath stem :: rest, sources, 0⟩ =
      .ok ⟨rest.erase (fragmentPath stem),
        sources ++ [(vertexPath stem, fragmentPath stem)], 0⟩ := by
  have h1 : fragmentPath stem ∈ vertexPath stem :: rest := List.mem_cons_of_mem _ hq
  have h2 : ("vs" : String) ≠ "fs" := by decide
  simp only [pairStep, elementAt_zero_cons, bind, Except.bind, hparse, substr0_vertexPath,
    if_neg h2, if_true]
  rw [show stem ++ ".fs" = fragmentPath stem from rfl, if_pos h1, if_neg hnew]
  simp only [ne_eq, vertexPath_ne_empty, not_false_eq_true, if_true, fragmentPath_ne_empty,
    eraseFound, List.mem_cons, true_or, List.erase_cons_head, hq, index_stays_zero]

theorem pairStep_vs_alone (stem n : String) (rest : List String)
    (sources : List (String × String))
    (hparse : ParseFileNameAndExtension (vertexPath stem) = .ok (n, "vs"))
    (hq : fragmentPath stem ∉ vertexPath stem :: rest)
    (hnew : (vertexPath stem, "") ∉ sources) :
    pairStep ⟨vertexPath stem :: rest, sources, 0⟩ =
      .ok ⟨rest, sources ++ [(vertexPath stem, "")], 0⟩ := by
  have h2 : ("vs" : String) ≠ "fs" := by decide
  simp only [pairStep, elementAt_zero_cons, bind, Except.bind, hparse, substr0_vertexPath,
    if_neg h2, if_true]
  rw [show stem ++ ".fs" = fragmentPath stem from rfl, if_neg hq, if_neg hnew]
  simp only [ne_eq, vertexPath_ne_empty, not_false_eq_true, if_true,
    eraseFound, List.mem_cons, true_or, List.erase_cons_head, not_true_eq_false, if_false,
    index_stays_zero]

theorem pairStep_fs_found (stem n : String) (rest : List String)
    (sources : List (String × String))
    (hparse : ParseFileNameAndExtension (fragmentPath stem) = .ok (n, "fs"))
    (hq : vertexPath stem ∈ rest)
    (hnew : (vertexPath stem, fragmentPath stem) ∉ sources) :
    pairStep ⟨fragmentPath stem :: rest, sources, 0⟩ =
      .ok ⟨rest.erase (vertexPath stem),
        sources ++ [(vertexPath stem, fragmentPath stem)], 0⟩ := by
  have h1 : vertexPath stem ∈ fragmentPath stem :: rest := List.mem_cons_of_mem _ hq
  have h3 : ¬ (fragmentPath stem == vertexPath stem) = true := by
    simpa using (vertexPath_ne_fragmentPath stem stem).symm
  simp only [pairStep, elementAt_zero_cons, bind, Except.bind, hparse, substr0_fragmentPath,
    if_true]
  rw [show stem ++ ".vs" = vertexPath stem from rfl, if_pos h1, if_neg hnew]
  simp only [ne_eq, vertexPath_ne_empty, not_false_eq_true, if_true, fragmentPath_ne_empty,
    eraseFound, h1, List.erase_cons_tail h3, List.mem_cons, true_or, List.erase_cons_head,
    index_stays_zero]

theorem pairStep_fs_alone (stem n : String) (rest : List String)
    (sources : List (String × String))
    (hparse : ParseFileNameAndExtension (fragmentPath stem) = .ok (n, "fs"))
    (hq : vertexPath stem ∉ fragmentPath stem :: rest)
    (hnew : ("", fragmentPath stem) ∉ sources) :
    pairStep ⟨fragmentPath stem :: rest, sources, 0⟩ =
      .ok ⟨rest, sources ++ [("", fragmentPath stem)], 0⟩ := by
  simp only [pairStep, elementAt_zero_cons, bind, Except.bind, hparse, substr0_fragmentPath,
    if_true]
  rw [show stem ++ ".vs" = vertexPath stem from rfl, if_neg hq, if_neg hnew]
  simp only [ne_eq, fragmentPath_ne_empty, not_false_eq_true, if_true,
    eraseFound, List.mem_cons, true_or, List.erase_cons_head, not_true_eq_false, if_false,
    index_stays_zero]

/-! ## The invariant of the pairing loop -/

theorem pairPaths_pair (v f : String) (hv : v ≠ "") (hf : f ≠ "") : pairPaths (v, f) = [v, f] := by
  simp [pairPaths, hv, hf]

theorem pairPaths_left (v : String) (hv : v ≠ "") : pairPaths (v, "") = [v] := by
  simp [pairPaths, hv]

theorem pairPaths_right (f : String) (hf : f ≠ "") : pairPaths ("", f) = [f] := by
  simp [pairPaths, hf]

theorem partners_after_pair (paths cur cur' : List String) (stem : String)
    (hold : ∀ t, vertexPath t ∈ paths → fragmentPath t ∈ paths →
      (vertexPath t ∈ cur ↔ fragmentPath t ∈ cur))
    (hmem : ∀ x, x ∈ cur' ↔ x ∈ cur ∧ x ≠ vertexPath stem ∧ x ≠ fragmentPath stem) :
    ∀ t, vertexPath t ∈ paths → fragmentPath t ∈ paths →
      (vertexPath t ∈ cur' ↔ fragmentPath t ∈ cur') := by
  intro t hv hf
  rw [hmem, hmem, hold t hv hf]
  have h1 : vertexPath t ≠ fragmentPath stem := vertexPath_ne_fragmentPath t stem
  have h2 : fragmentPath t ≠ vertexPath stem := (vertexPath_ne_fragmentPath stem t).symm
  have h3 : vertexPath t ≠ vertexPath stem ↔ fragmentPath t ≠ fragmentPath stem := by
    constructor
    · intro h e
      exact h (by rw [fragmentPath_injective _ _ e])
    · intro h e
      exact h (by rw [vertexPath_injective _ _ e])
  constructor
  · rintro ⟨hc, hne, _⟩
    exact ⟨hc, h2, h3.1 hne⟩
  · rintro ⟨hc, _, hne⟩
    exact ⟨hc, h3.2 hne, h1⟩

theorem partners_after_vertex_alone (paths cur cur' : List String) (stem : String)
    (hold : ∀ t, vertexPath t ∈ paths → fragmentPath t ∈ paths →
      (vertexPath t ∈ cur ↔ fragmentPath t ∈ cur))
    (hmem : ∀ x, x ∈ cur' ↔ x ∈ cur ∧ x ≠ vertexPath stem)
    (hno : fragmentPath stem ∉ paths) :
    ∀ t, vertexPath t ∈ paths → fragmentPath t ∈ paths →
      (vertexPath t ∈ cur' ↔ fragmentPath t ∈ cur') := by
  intro t hv hf
  rw [hmem, hmem, hold t hv hf]
  have hts : t ≠ stem := fun e => hno (e ▸ hf)
  have h1 : vertexPath t ≠ vertexPath stem := fun e => hts (vertexPath_injective _ _ e)
  have h2 : fragmentPath t ≠ vertexPath stem := (vertexPath_ne_fragmentPath stem t).symm
  constructor
  · rintro ⟨hc, _⟩
    exact ⟨hc, h2⟩
  · rintro ⟨hc, _⟩
    exact ⟨hc, h1⟩

theorem partners_after_fragment_alone (paths cur cur' : List String) (stem : String)
    (hold : ∀ t, vertexPath t ∈ paths → fragmentPath t ∈ paths →
      (vertexPath t ∈ cur ↔ fragmentPath t ∈ cur))
    (hmem : ∀ x, x ∈ cur' ↔ x ∈ cur ∧ x ≠ fragmentPath stem)
    (hno : vertexPath stem ∉ paths) :
    ∀ t, vertexPath t ∈ paths → fragmentPath t ∈ paths →
      (vertexPath t ∈ cur' ↔ fragmentPath t ∈ cur') := by
  intro t hv hf
  rw [hmem, hmem, hold t hv hf]
  have hts : t ≠ stem := fun e => hno (e ▸ hv)
  have h1 : fragmentPath t ≠ fragmentPath stem := fun e => hts (fragmentPath_injective _ _ e)
  have h2 : vertexPath t ≠ fragmentPath stem := vertexPath_ne_fragmentPath t stem
  constructor
  · rintro ⟨hc, _⟩
    exact ⟨hc, h1⟩
  · rintro ⟨hc, _⟩
    exact ⟨hc, h2⟩

theorem mem_tail_iff (p : String) (rest : List String) (hp : p ∉ rest) (x : String) :
    x ∈ rest ↔ x ∈ p :: rest ∧ x ≠ p := by
  constructor
  · intro hx
    exact ⟨List.mem_cons_of_mem _ hx, fun e => hp (e ▸ hx)⟩
  · rintro ⟨hx, hne⟩
    rcases List.mem_cons.1 hx with h | h
    · exact absurd h hne
    · exact h

theorem mem_tail_erase_iff (p q : String) (rest : List String) (hn : (p :: rest).Nodup)
    (x : String) : x ∈ rest.erase q ↔ x ∈ p :: rest ∧ x ≠ p ∧ x ≠ q := by
  have hrest : rest.Nodup := (List.nodup_cons.1 hn).2
  have hp : p ∉ rest := (List.nodup_cons.1 hn).1
  rw [List.Nodup.mem_erase_iff hrest, mem_tail_iff p rest hp]
  constructor
  · rintro ⟨h1, h2, h3⟩
    exact ⟨h2, h3, h1⟩
  · rintro ⟨h1, h2, h3⟩
    exact ⟨h3, h1, h2⟩

theorem flatMap_append_single (sources : List (String × String)) (pair : String × String) :
    (sources ++ [pair]).flatMap pairPaths = sources.flatMap pairPaths ++ pairPaths pair := by
  simp [List.flatMap_append]

theorem pairStep_preserves (paths : List String) (hnodup : paths.Nodup)
    (p : String) (rest : List String) (sources : List (String × String)) (i : Int)
    (inv : PairInv paths ⟨p :: rest, sources, i⟩) :
    ∃ s', pairStep ⟨p :: rest, sources, i⟩ = .ok s' ∧ PairInv paths s' ∧
      p ∉ s'.shaderPaths ∧ s'.shaderPaths.length < (p :: rest).length := by
  have hi : i = 0 := inv.index
  subst hi
  have hperm := inv.perm
  have hshader := inv.shader
  have hpairs := inv.pairs
  have hpartners := inv.partners
  simp only at hperm hshader hpairs hpartners
  have hall : (sources.flatMap pairPaths ++ p :: rest).Nodup := hperm.nodup_iff.2 hnodup
  have hcur : (p :: rest).Nodup := (List.nodup_append.1 hall).2.1
  have hsub : ∀ x, x ∈ p :: rest → x ∈ paths := fun x hx =>
    hperm.mem_iff.1 (List.mem_append_right _ hx)
  have hp : p ∉ rest := (List.nodup_cons.1 hcur).1
  have hfresh : ∀ pair : String × String, p ∈ pairPaths pair → pair ∉ sources := by
    intro pair hpp hps
    exact (List.nodup_append.1 hall).2.2 (List.mem_flatMap.2 ⟨pair, hps, hpp⟩)
      (List.mem_cons_self _ _)
  have hold : ∀ pair ∈ sources, PairOK paths pair := hpairs
  obtain ⟨stem, hcase⟩ := IsShaderPath_cases p (hshader p (List.mem_cons_self _ _))
  rcases hcase with ⟨hpv, n, hparse⟩ | ⟨hpf, n, hparse⟩
  · subst hpv
    have hvin : vertexPath stem ∈ paths := hsub _ (List.mem_cons_self _ _)
    by_cases hq : fragmentPath stem ∈ vertexPath stem :: rest
    · have hqr : fragmentPath stem ∈ rest := by
        rcases List.mem_cons.1 hq with h | h
        · exact absurd h.symm (vertexPath_ne_fragmentPath stem stem)
        · exact h
      have hpp : pairPaths (vertexPath stem, fragmentPath stem) =
          [vertexPath stem, fragmentPath stem] :=
        pairPaths_pair _ _ (vertexPath_ne_empty stem) (fragmentPath_ne_empty stem)
      have hnew := hfresh (vertexPath stem, fragmentPath stem) (by rw [hpp]; simp)
      refine ⟨_, pairStep_vs_found stem n rest sources hparse hqr hnew, ?_, ?_, ?_⟩
      · refine ⟨rfl, ?_, ?_, ?_, ?_⟩
        · intro x hx
          exact hshader x (List.mem_cons_of_mem _ (List.mem_of_mem_erase hx))
        · show ((sources ++ [(vertexPath stem, fragmentPath stem)]).flatMap pairPaths ++
            rest.erase (fragmentPath stem)).Perm paths
          rw [flatMap_append_single, hpp, List.append_assoc]
          refine (List.Perm.append_left _ ?_).trans hperm
          exact List.Perm.cons _ (List.perm_cons_erase hqr).symm
        · intro pair hpair
          rcases List.mem_append.1 hpair with h | h
          · exact hold pair h
          · rw [List.mem_singleton.1 h]
            exact ⟨stem, Or.inl ⟨rfl, hvin, hsub _ hq⟩⟩
        · refine partners_after_pair paths (vertexPath stem :: rest) _ stem hpartners ?_
          intro x
          exact mem_tail_erase_iff _ _ rest hcur x
      · exact fun h => hp (List.mem_of_mem_erase h)
      · show (rest.erase (fragmentPath stem)).length < (vertexPath stem :: rest).length
        rw [List.length_erase_of_mem hqr, List.length_cons]
        omega
    · have hpp : pairPaths (vertexPath stem, "") = [vertexPath stem] :=
        pairPaths_left _ (vertexPath_ne_empty stem)
      have hnew := hfresh (vertexPath stem, "") (by rw [hpp]; simp)
      have hno : fragmentPath stem ∉ paths := by
        intro hf
        exact hq ((hpartners stem hvin hf).1 (List.mem_cons_self _ _))
      refine ⟨_, pairStep_vs_alone stem n rest sources hparse hq hnew, ?_, ?_, ?_⟩
      · refine ⟨rfl, ?_, ?_, ?_, ?_⟩
        · intro x hx
          exact hshader x (List.mem_cons_of_mem _ hx)
        · show ((sources ++ [(vertexPath stem, "")]).flatMap pairPaths ++ rest).Perm paths
          rw [flatMap_append_single, hpp, List.append_assoc]
          exact hperm
        · intro pair hpair
          rcases List.mem_append.1 hpair with h | h
          · exact hold pair h
          · rw [List.mem_singleton.1 h]
            exact ⟨stem, Or.inr (Or.inl ⟨rfl, hvin, hno⟩)⟩
        · refine partners_after_vertex_alone paths (vertexPath stem :: rest) _ stem
            hpartners ?_ hno
          intro x
          exact mem_tail_iff _ rest hp x
      · exact hp
      · show rest.length < (vertexPath stem :: rest).length
        simp
  · subst hpf
    have hfin : fragmentPath stem ∈ paths := hsub _ (List.mem_cons_self _ _)
    by_cases hq : vertexPath stem ∈ fragmentPath stem :: rest
    · have hqr : vertexPath stem ∈ rest := by
        rcases List.mem_cons.1 hq with h | h
        · exact absurd h (vertexPath_ne_fragmentPath stem stem)
        · exact h
      have hpp : pairPaths (vertexPath stem, fragmentPath stem) =
          [vertexPath stem, fragmentPath stem] :=
        pairPaths_pair _ _ (vertexPath_ne_empty stem) (fragmentPath_ne_empty stem)
      have hnew := hfresh (vertexPath stem, fragmentPath stem) (by rw [hpp]; simp)
      refine ⟨_, pairStep_fs_found stem n rest sources hparse hqr hnew, ?_, ?_, ?_⟩
      · refine ⟨rfl, ?_, ?_, ?_, ?_⟩
        · intro x hx
          exact hshader x (List.mem_cons_of_mem _ (List.mem_of_mem_erase hx))
        · show ((sources ++ [(vertexPath stem, fragmentPath stem)]).flatMap pairPaths ++
            rest.erase (vertexPath stem)).Perm paths
          rw [flatMap_append_single, hpp, List.append_assoc]
          refine (List.Perm.append_left _ ?_).trans hperm
          exact (List.Perm.swap _ _ _).trans
            (List.Perm.cons _ (List.perm_cons_erase hqr).symm)
        · intro pair hpair
          rcases List.mem_append.1 hpair with h | h
          · exact hold pair h
          · rw [List.mem_singleton.1 h]
            exact ⟨stem, Or.inl ⟨rfl, hsub _ hq, hfin⟩⟩
        · refine partners_after_pair paths (fragmentPath stem :: rest) _ stem hpartners ?_
          intro x
          rw [mem_tail_erase_iff _ _ rest hcur x]
          constructor
          · rintro ⟨h1, h2, h3⟩
            exact ⟨h1, h3, h2⟩
          · rintro ⟨h1, h2, h3⟩
            exact ⟨h1, h3, h2⟩
      · exact fun h => hp (List.mem_of_mem_erase h)
      · show (rest.erase (vertexPath stem)).length < (fragmentPath stem :: rest).length
        rw [List.length_erase_of_mem hqr, List.length_cons]
        omega
    · have hpp : pairPaths ("", fragmentPath stem) = [fragmentPath stem] :=
        pairPaths_right _ (fragmentPath_ne_empty stem)
      have hnew := hfresh ("", fragmentPath stem) (by rw [hpp]; simp)
      have hno : vertexPath stem ∉ paths := by
        intro hv
        exact hq ((hpartners stem hv hfin).2 (List.mem_cons_self _ _))
      refine ⟨_, pairStep_fs_alone stem n rest sources hparse hq hnew, ?_, ?_, ?_⟩
      · refine ⟨rfl, ?_, ?_, ?_, ?_⟩
        · intro x hx
          exact hshader x (List.mem_cons_of_mem _ hx)
        · show ((sources ++ [("", fragmentPath stem)]).flatMap pairPaths ++ rest).Perm paths
          rw [flatMap_append_single, hpp, List.append_assoc]
          exact hperm
        · intro pair hpair
          rcases List.mem_append.1 hpair with h | h
          · exact hold pair h
          · rw [List.mem_singleton.1 h]
            exact ⟨stem, Or.inr (Or.inr ⟨rfl, hfin, hno⟩)⟩
        · refine partners_after_fragment_alone paths (fragmentPath stem :: rest) _ stem
            hpartners ?_ hno
          intro x
          exact mem_tail_iff _ rest hp x
      · exact hp
      · show rest.length < (fragmentPath stem :: rest).length
        simp

/-! ## The pairing loop -/

theorem pairRun_of_inv (paths : List String) (hnodup : paths.Nodup) :
    ∀ (n : Nat) (s : PairState), PairInv paths s → s.shaderPaths.length ≤ n →
      ∃ s', pairRun n s = .ok s' ∧ PairInv paths s' ∧ s'.shaderPaths = [] := by
  intro n
  induction n with
  | zero =>
    intro s inv hl
    exact ⟨s, rfl, inv, List.length_eq_zero.1 (Nat.le_zero.1 hl)⟩
  | succ n ih =>
    intro s inv hl
    obtain ⟨cur, sources, i⟩ := s
    cases cur with
    | nil => exact ⟨_, by simp [pairRun], inv, rfl⟩
    | cons p rest =>
      obtain ⟨s1, hstep, inv1, _, hlt⟩ := pairStep_preserves paths hnodup p rest sources i inv
      have hl1 : s1.shaderPaths.length ≤ n := by
        simp only [List.length_cons] at hl hlt
        omega
      obtain ⟨s', hrun, inv', hempty⟩ := ih s1 inv1 hl1
      refine ⟨s', ?_, inv', hempty⟩
      rw [pairRun, if_pos (by simp), hstep]
      exact hrun

theorem pairRun_reachable (paths : List String) (hnodup : paths.Nodup) :
    ∀ (k : Nat) (s0 s : PairState), PairInv paths s0 → pairRun k s0 = .ok s →
      PairInv paths s := by
  intro k
  induction k with
  | zero =>
    intro s0 s inv h
    cases h
    exact inv
  | succ k ih =>
    intro s0 s inv h
    obtain ⟨cur, sources, i⟩ := s0
    cases cur with
    | nil =>
      simp [pairRun] at h
      rw [← h]
      exact inv
    | cons p rest =>
      obtain ⟨s1, hstep, inv1, _, _⟩ := pairStep_preserves paths hnodup p rest sources i inv
      rw [pairRun, if_pos (by simp), hstep] at h
      exact ih s1 s inv1 h

theorem PairInv_initial (paths : List String) (hshader : ∀ p ∈ paths, IsShaderPath p) :
    PairInv paths ⟨paths, [], 0⟩ :=
  ⟨rfl, hshader, by simp, by simp, fun _ hv hf => ⟨fun _ => hf, fun _ => hv⟩⟩

theorem IsShaderPath_ne_empty (p : String) (h : IsShaderPath p) : p ≠ "" := by
  obtain ⟨stem, hc | hc⟩ := IsShaderPath_cases p h
  · rw [hc.1]
    exact vertexPath_ne_empty stem
  · rw [hc.1]
    exact fragmentPath_ne_empty stem

theorem mem_pairPaths (pair : String × String) (p : String) :
    p ∈ pairPaths pair ↔ (pair.1 = p ∨ pair.2 = p) ∧ p ≠ "" := by
  simp only [pairPaths, List.mem_filter, List.mem_cons, List.mem_singleton, List.not_mem_nil,
    or_false, decide_eq_true_eq]
  constructor
  · rintro ⟨h | h, hne⟩
    · exact ⟨Or.inl h.symm, hne⟩
    · exact ⟨Or.inr h.symm, hne⟩
  · rintro ⟨h | h, hne⟩
    · exact ⟨Or.inl h.symm, hne⟩
    · exact ⟨Or.inr h.symm, hne⟩

theorem exactly_one_pair (paths : List String) (hnodup : paths.Nodup)
    (hshader : ∀ p ∈ paths, IsShaderPath p) (sources : List (String × String))
    (hperm : (sources.flatMap pairPaths).Perm paths) :
    ∀ p ∈ paths, ∃! pair, pair ∈ sources ∧ (pair.1 = p ∨ pair.2 = p) := by
  intro p hp
  have hne : p ≠ "" := IsShaderPath_ne_empty p (hshader p hp)
  have hnd : (sources.flatMap pairPaths).Nodup := hperm.nodup_iff.2 hnodup
  have hpw := (List.nodup_flatMap.1 hnd).2
  obtain ⟨pair, hps, hpp⟩ := List.mem_flatMap.1 (hperm.mem_iff.2 hp)
  refine ⟨pair, ⟨hps, ((mem_pairPaths pair p).1 hpp).1⟩, ?_⟩
  rintro other ⟨hos, hop⟩
  by_contra hdiff
  have hsym : Symmetric (Function.onFun List.Disjoint pairPaths) := by
    intro a b hab
    exact List.Disjoint.symm hab
  have hd := List.Pairwise.forall hsym hpw hos hps hdiff
  exact hd ((mem_pairPaths other p).2 ⟨hop, hne⟩) hpp

/-- C17: for every list of pairwise distinct paths whose file name has
exactly one `.` and the extension `vs` or `fs`, the pairing loop terminates:
after at most as many rounds as there are paths it ends, the list empty and
the index 0. In every round that is reached with a non-empty list the body
runs without fault, removes the path at index 0 from the list and leaves the
list shorter. At the end every input path appears in exactly one collected
pair, and every pair is a vertex path followed by its fragment partner, both
selected, or a selected path alone with the empty string in the place of the
partner that was not selected, the vertex path first. -/
theorem pairing_loop_terminates (paths : List String) (hnodup : paths.Nodup)
    (hshader : ∀ p ∈ paths, IsShaderPath p) :
    ∃ sources,
      pairRun paths.length ⟨paths, [], 0⟩ = .ok ⟨[], sources, 0⟩ ∧
      (∀ k s, pairRun k ⟨paths, [], 0⟩ = .ok s → ∀ p rest, s.shaderPaths = p :: rest →
        ∃ s', pairStep s = .ok s' ∧ p ∉ s'.shaderPaths ∧
          s'.shaderPaths.length < s.shaderPaths.length) ∧
      (∀ p ∈ paths, ∃! pair, pair ∈ sources ∧ (pair.1 = p ∨ pair.2 = p)) ∧
      (∀ pair ∈ sources, PairOK paths pair) := by
  have inv0 := PairInv_initial paths hshader
  obtain ⟨final, hrun, inv, hempty⟩ :=
    pairRun_of_inv paths hnodup paths.length ⟨paths, [], 0⟩ inv0 (le_refl _)
  obtain ⟨cur, sources, i⟩ := final
  have hi : i = 0 := inv.index
  simp only at hempty
  subst hi
  subst hempty
  refine ⟨sources, hrun, ?_, ?_, inv.pairs⟩
  · intro k s hk p rest hs
    have invs := pairRun_reachable paths hnodup k _ s inv0 hk
    obtain ⟨cur, src, j⟩ := s
    simp only at hs
    subst hs
    obtain ⟨s', hstep, _, hp, hlt⟩ := pairStep_preserves paths hnodup p rest src j invs
    exact ⟨s', hstep, hp, hlt⟩
  · have hperm := inv.perm
    simp only [List.append_nil] at hperm
    exact exactly_one_pair paths hnodup hshader sources hperm

theorem examplePaths_shader : ∀ p ∈ examplePaths, IsShaderPath p := by
  intro p hp
  simp only [examplePaths, List.mem_cons, List.mem_singleton, List.not_mem_nil, or_false] at hp
  rcases hp with rfl | rfl | rfl | rfl
  · exact ⟨"/shaders/".data, "toon".data, "vs".data, by decide, by decide, by decide,
      by decide, by decide⟩
  · exact ⟨"/shaders/".data, "glow".data, "fs".data, by decide, by decide, by decide,
      by decide, by decide⟩
  · exact ⟨"/shaders/".data, "toon".data, "fs".data, by decide, by decide, by decide,
      by decide, by decide⟩
  · exact ⟨[], "flat".data, "vs".data, by decide, by decide, by decide, by decide, by decide⟩

theorem pairing_loop_terminates_witness :
    examplePaths.Nodup ∧ (∀ p ∈ examplePaths, IsShaderPath p) ∧
    ∃ sources,
      pairRun examplePaths.length ⟨examplePaths, [], 0⟩ = .ok ⟨[], sources, 0⟩ ∧
      (∀ k s, pairRun k ⟨examplePaths, [], 0⟩ = .ok s → ∀ p rest, s.shaderPaths = p :: rest →
        ∃ s', pairStep s = .ok s' ∧ p ∉ s'.shaderPaths ∧
          s'.shaderPaths.length < s.shaderPaths.length) ∧
      (∀ p ∈ examplePaths, ∃! pair, pair ∈ sources ∧ (pair.1 = p ∨ pair.2 = p)) ∧
      (∀ pair ∈ sources, PairOK examplePaths pair) :=
  ⟨by decide, examplePaths_shader,
    pairing_loop_terminates examplePaths (by decide) examplePaths_shader⟩

theorem pairRun_examplePaths :
    pairRun examplePaths.length ⟨examplePaths, [], 0⟩ =
      .ok ⟨[], [("/shaders/toon.vs", "/shaders/toon.fs"), ("", "/shaders/glow.fs"),
        ("flat.vs", "")], 0⟩ := by
  decide

end Tenshin
